import Mathlib

set_option maxRecDepth 4000

/- Verification of the utxo nursery (utxonursery.go): data model and on-disk
   codec, the batch sweep builder, the graduateClass height driver, and output
   ingress. Machine integers are modelled as Nat and Int, with wrap-around made
   explicit at the points where the Go code can overflow. External collaborators
   (store, wallet, signer, notifier, broadcaster) enter as explicit inputs. -/

/-- Two's-complement wrap of an integer into the int64 range, matching Go
int64 arithmetic on overflow. -/
def wrap64 (i : Int) : Int := (i + 2 ^ 63) % 2 ^ 64 - 2 ^ 63

/-- Reinterpretation of an integer as a Go uint64 value. -/
def toU64 (i : Int) : Nat := (i % 2 ^ 64).toNat

/-- Reinterpretation of a Go uint64 value as an int64 value. -/
def toInt64 (n : Nat) : Int := if n < 2 ^ 63 then (n : Int) else (n : Int) - 2 ^ 64

/-- The int64 range. -/
def int64Range (i : Int) : Prop := -(2 ^ 63) ≤ i ∧ i < 2 ^ 63

instance (i : Int) : Decidable (int64Range i) := by
  unfold int64Range; infer_instance

/-- binary.BigEndian.PutUint16: big-endian 2-byte layout. -/
def putUint16be (n : Nat) : List Nat := [n / 2 ^ 8 % 256, n % 256]

/-- binary.BigEndian.PutUint32: big-endian 4-byte layout. -/
def putUint32be (n : Nat) : List Nat :=
  [n / 2 ^ 24 % 256, n / 2 ^ 16 % 256, n / 2 ^ 8 % 256, n % 256]

/-- binary.BigEndian.PutUint64: big-endian 8-byte layout. -/
def putUint64be (n : Nat) : List Nat :=
  [n / 2 ^ 56 % 256, n / 2 ^ 48 % 256, n / 2 ^ 40 % 256, n / 2 ^ 32 % 256,
   n / 2 ^ 24 % 256, n / 2 ^ 16 % 256, n / 2 ^ 8 % 256, n % 256]

/-- Value of a big-endian byte list. -/
def beVal (bs : List Nat) : Nat := bs.foldl (fun a b => a * 256 + b) 0

/-- Read exactly k bytes from the front of the stream. -/
def readBytes (k : Nat) (l : List Nat) : Option (List Nat × List Nat) :=
  if k ≤ l.length then some (l.take k, l.drop k) else none

/-- Read a big-endian uint16. -/
def readUint16 (l : List Nat) : Option (Nat × List Nat) :=
  match readBytes 2 l with
  | none => none
  | some (bs, rest) => some (beVal bs, rest)

/-- Read a big-endian uint32. -/
def readUint32 (l : List Nat) : Option (Nat × List Nat) :=
  match readBytes 4 l with
  | none => none
  | some (bs, rest) => some (beVal bs, rest)

/-- Read a big-endian uint64. -/
def readUint64 (l : List Nat) : Option (Nat × List Nat) :=
  match readBytes 8 l with
  | none => none
  | some (bs, rest) => some (beVal bs, rest)

/-- wire.WriteVarInt. Values below 0xfd are written as a single byte; this
development only ever writes lengths of at most 0xffff (in fact at most 32). -/
def writeVarInt (n : Nat) : List Nat :=
  if n < 253 then [n] else [253, n % 256, n / 256 % 256]

/-- wire.ReadVarBytes with the given maximum allowed length. A multi-byte
length marker canonically denotes a value of at least 0xfd, which exceeds
every maximum used in this development (at most 32), so such markers are
rejected, exactly as btcd rejects oversized or non-canonical lengths. -/
def readVarBytes (maxAllowed : Nat) : List Nat → Option (List Nat × List Nat)
  | [] => none
  | b :: rest => if b < 253 ∧ b ≤ maxAllowed then readBytes b rest else none

/-- wire.WriteVarBytes: varint length followed by the raw bytes. -/
def writeVarBytes (b : List Nat) : List Nat := writeVarInt b.length ++ b

/-- wire.OutPoint: a (txid, vout) pair. The txid is a 32-byte hash in
practice; it is modelled as a byte list whose length is carried by the
well-formedness predicate. -/
structure OutPoint where
  hash : List Nat
  index : Nat
deriving DecidableEq, Repr

/-- writeOutpoint from utxonursery.go: varbytes of the 32-byte hash followed
by the 4-byte big-endian index. -/
def writeOutpoint (o : OutPoint) : List Nat :=
  writeVarBytes o.hash ++ putUint32be o.index

/-- readOutpoint from utxonursery.go: read the hash as varbytes capped at 32
bytes, copy it into the zeroed 32-byte hash array, then read the index. -/
def readOutpoint (l : List Nat) : Option (OutPoint × List Nat) :=
  match readVarBytes 32 l with
  | none => none
  | some (txid, l1) =>
    match readUint32 l1 with
    | none => none
    | some (idx, l2) => some (⟨(txid ++ List.replicate 32 0).take 32, idx⟩, l2)

/-- wire.TxIn: previous outpoint, sequence number and witness stack. The
signature script is unused by the nursery and omitted. -/
structure TxIn where
  previousOutPoint : OutPoint
  sequence : Nat
  witness : List (List Nat)
deriving DecidableEq, Repr

/-- wire.TxOut: output value in satoshis and the public key script. -/
structure TxOut where
  value : Int
  pkScript : List Nat
deriving DecidableEq, Repr

/-- wire.MsgTx restricted to the fields the nursery reads or writes. -/
structure MsgTx where
  version : Nat
  txIn : List TxIn
  txOut : List TxOut
  lockTime : Nat
deriving DecidableEq, Repr

/-- Concatenation of the encodings of all list elements. -/
def concatMap (f : α → List Nat) : List α → List Nat
  | [] => []
  | x :: xs => f x ++ concatMap f xs

/-- Modelled from the spec: the presigned timeout transaction is stored in
the canonical, self-delimiting transaction format of the chain
(wire.MsgTx.Serialize is outside src/). A canonical self-delimiting layout
over the modelled MsgTx fields is used: per input, the outpoint, the
sequence number and the witness stack. -/
def serializeTxIn (i : TxIn) : List Nat :=
  writeOutpoint i.previousOutPoint ++ putUint32be i.sequence ++
    putUint32be i.witness.length ++
    concatMap (fun w => putUint32be w.length ++ w) i.witness

/-- Modelled from the spec: canonical layout of one transaction output. -/
def serializeTxOut (o : TxOut) : List Nat :=
  putUint64be (toU64 o.value) ++ putUint32be o.pkScript.length ++ o.pkScript

/-- Modelled from the spec: canonical self-delimiting transaction layout. -/
def serializeTx (tx : MsgTx) : List Nat :=
  putUint32be tx.version ++
    putUint32be tx.txIn.length ++ concatMap serializeTxIn tx.txIn ++
    putUint32be tx.txOut.length ++ concatMap serializeTxOut tx.txOut ++
    putUint32be tx.lockTime

/-- Read a counted list of records with the given record reader. -/
def readList (rd : List Nat → Option (α × List Nat)) :
    Nat → List Nat → Option (List α × List Nat)
  | 0, l => some ([], l)
  | k + 1, l =>
    match rd l with
    | none => none
    | some (x, l1) =>
      match readList rd k l1 with
      | none => none
      | some (xs, l2) => some (x :: xs, l2)

/-- Read one witness stack item: 4-byte length then the raw bytes. -/
def readWitnessItem (l : List Nat) : Option (List Nat × List Nat) :=
  match readUint32 l with
  | none => none
  | some (n, l1) => readBytes n l1

/-- Read one transaction input. -/
def deserializeTxIn (l : List Nat) : Option (TxIn × List Nat) :=
  match readOutpoint l with
  | none => none
  | some (op, l1) =>
    match readUint32 l1 with
    | none => none
    | some (seqNo, l2) =>
      match readUint32 l2 with
      | none => none
      | some (k, l3) =>
        match readList readWitnessItem k l3 with
        | none => none
        | some (ws, l4) => some (⟨op, seqNo, ws⟩, l4)

/-- Read one transaction output. -/
def deserializeTxOut (l : List Nat) : Option (TxOut × List Nat) :=
  match readUint64 l with
  | none => none
  | some (v, l1) =>
    match readUint32 l1 with
    | none => none
    | some (n, l2) =>
      match readBytes n l2 with
      | none => none
      | some (pk, l3) => some (⟨toInt64 v, pk⟩, l3)

/-- Read a whole transaction. -/
def deserializeTx (l : List Nat) : Option (MsgTx × List Nat) :=
  match readUint32 l with
  | none => none
  | some (v, l1) =>
    match readUint32 l1 with
    | none => none
    | some (nIn, l2) =>
      match readList deserializeTxIn nIn l2 with
      | none => none
      | some (ins, l3) =>
        match readUint32 l3 with
        | none => none
        | some (nOut, l4) =>
          match readList deserializeTxOut nOut l4 with
          | none => none
          | some (outs, l5) =>
            match readUint32 l5 with
            | none => none
            | some (lt, l6) => some (⟨v, ins, outs, lt⟩, l6)

/-- Modelled from the spec: lnwallet.SignDescriptor is outside src/. The spec
records it as an opaque, self-delimited blob carrying whatever the external
signer needs, including the value of the output being spent, from which the
nursery takes the output amount. -/
structure SignDesc where
  outputValue : Int
  blob : List Nat
deriving DecidableEq, Repr

/-- Modelled from the spec: lnwallet.WriteSignDescriptor, a self-delimiting
writer for the opaque descriptor. -/
def writeSignDescriptor (sd : SignDesc) : List Nat :=
  putUint64be (toU64 sd.outputValue) ++ putUint32be sd.blob.length ++ sd.blob

/-- Modelled from the spec: lnwallet.ReadSignDescriptor. -/
def readSignDescriptor (l : List Nat) : Option (SignDesc × List Nat) :=
  match readUint64 l with
  | none => none
  | some (v, l1) =>
    match readUint32 l1 with
    | none => none
    | some (n, l2) =>
      match readBytes n l2 with
      | none => none
      | some (b, l3) => some (⟨toInt64 v, b⟩, l3)

/-- kidOutput from utxonursery.go. The Go struct embeds breachedOutput
(amount, outpoint, witness type and sign descriptor, defined outside src/);
those embedded fields are flattened here. The witness type is the numeric
lnwallet tag. -/
structure kidOutput where
  amt : Int
  outpoint : OutPoint
  originChanPoint : OutPoint
  blocksToMaturity : Nat
  confHeight : Nat
  witnessType : Nat
  signDesc : SignDesc
deriving DecidableEq, Repr

/-- kidOutput.Encode: amount, outpoint, origin channel point, blocks to
maturity, confirmation height, witness type as uint16, sign descriptor. -/
def kidOutput.Encode (k : kidOutput) : List Nat :=
  putUint64be (toU64 k.amt) ++
    writeOutpoint k.outpoint ++ writeOutpoint k.originChanPoint ++
    putUint32be k.blocksToMaturity ++ putUint32be k.confHeight ++
    putUint16be k.witnessType ++ writeSignDescriptor k.signDesc

/-- kidOutput.Decode. The Go code wraps each outpoint read in a 40-byte
limit reader; an encoded outpoint with a hash of at most 32 bytes occupies
at most 37 bytes, within the limit, so the limiter is modelled as a no-op. -/
def kidOutput.Decode (l : List Nat) : Option (kidOutput × List Nat) :=
  match readUint64 l with
  | none => none
  | some (a, l1) =>
    match readOutpoint l1 with
    | none => none
    | some (op, l2) =>
      match readOutpoint l2 with
      | none => none
      | some (ocp, l3) =>
        match readUint32 l3 with
        | none => none
        | some (btm, l4) =>
          match readUint32 l4 with
          | none => none
          | some (ch, l5) =>
            match readUint16 l5 with
            | none => none
            | some (wt, l6) =>
              match readSignDescriptor l6 with
              | none => none
              | some (sd, l7) => some (⟨toInt64 a, op, ocp, btm, ch, wt, sd⟩, l7)

/-- babyOutput from utxonursery.go: a two-stage htlc output wrapping its
future kidOutput self, together with the absolute expiry height and the
presigned timeout transaction. The embedded kidOutput field is named kid. -/
structure babyOutput where
  expiry : Nat
  timeoutTx : MsgTx
  kid : kidOutput
deriving DecidableEq, Repr

/-- babyOutput.Encode: expiry, serialized timeout transaction, then the
wrapped kidOutput. -/
def babyOutput.Encode (b : babyOutput) : List Nat :=
  putUint32be b.expiry ++ serializeTx b.timeoutTx ++ kidOutput.Encode b.kid

/-- babyOutput.Decode. -/
def babyOutput.Decode (l : List Nat) : Option (babyOutput × List Nat) :=
  match readUint32 l with
  | none => none
  | some (e, l1) =>
    match deserializeTx l1 with
    | none => none
    | some (tx, l2) =>
      match kidOutput.Decode l2 with
      | none => none
      | some (k, l3) => some (⟨e, tx, k⟩, l3)

/-- Well-formedness of an outpoint: a true 32-byte hash and a uint32 index. -/
def OutPointWF (o : OutPoint) : Prop := o.hash.length = 32 ∧ o.index < 2 ^ 32

instance (o : OutPoint) : Decidable (OutPointWF o) := by
  unfold OutPointWF; infer_instance

/-- Well-formedness of a transaction input. -/
def TxInWF (i : TxIn) : Prop :=
  OutPointWF i.previousOutPoint ∧ i.sequence < 2 ^ 32 ∧
    i.witness.length < 2 ^ 32 ∧ ∀ w ∈ i.witness, w.length < 2 ^ 32

instance (i : TxIn) : Decidable (TxInWF i) := by
  unfold TxInWF; infer_instance

/-- Well-formedness of a transaction output. -/
def TxOutWF (o : TxOut) : Prop := int64Range o.value ∧ o.pkScript.length < 2 ^ 32

instance (o : TxOut) : Decidable (TxOutWF o) := by
  unfold TxOutWF; infer_instance

/-- Well-formedness of a transaction. -/
def MsgTxWF (tx : MsgTx) : Prop :=
  tx.version < 2 ^ 32 ∧ tx.lockTime < 2 ^ 32 ∧
    tx.txIn.length < 2 ^ 32 ∧ tx.txOut.length < 2 ^ 32 ∧
    (∀ i ∈ tx.txIn, TxInWF i) ∧ ∀ o ∈ tx.txOut, TxOutWF o

instance (tx : MsgTx) : Decidable (MsgTxWF tx) := by
  unfold MsgTxWF; infer_instance

/-- Well-formedness of a sign descriptor. -/
def SignDescWF (sd : SignDesc) : Prop :=
  int64Range sd.outputValue ∧ sd.blob.length < 2 ^ 32

instance (sd : SignDesc) : Decidable (SignDescWF sd) := by
  unfold SignDescWF; infer_instance

/-- Well-formedness of a kid output: every recorded scalar fits the width it
is stored at. -/
def kidWF (k : kidOutput) : Prop :=
  int64Range k.amt ∧ OutPointWF k.outpoint ∧ OutPointWF k.originChanPoint ∧
    k.blocksToMaturity < 2 ^ 32 ∧ k.confHeight < 2 ^ 32 ∧
    k.witnessType < 2 ^ 16 ∧ SignDescWF k.signDesc

instance (k : kidOutput) : Decidable (kidWF k) := by
  unfold kidWF; infer_instance

/-- Well-formedness of a baby output. -/
def babyWF (b : babyOutput) : Prop :=
  b.expiry < 2 ^ 32 ∧ MsgTxWF b.timeoutTx ∧ kidWF b.kid

instance (b : babyOutput) : Decidable (babyWF b) := by
  unfold babyWF; infer_instance

/-- External lnwallet constant (not in src/): base size of the sweep
transaction skeleton. The concrete value is immaterial to the claims. -/
def BaseSweepTxSize : Nat := 48

/-- External lnwallet constant (not in src/): witness header size. -/
def WitnessHeaderSize : Nat := 2

/-- External lnwallet constant (not in src/): per-input base size. -/
def InputSize : Nat := 41

/-- External lnwallet constant (not in src/): witness weight of a
commitment to-local time-lock spend. -/
def ToLocalTimeoutWitnessSize : Nat := 156

/-- External lnwallet constant (not in src/): witness weight of an offered
htlc timeout spend. -/
def OfferedHtlcTimeoutWitnessSize : Nat := 285

/-- External lnwallet witness-type tag (not in src/): commitment to-local
time-locked output. Only distinctness of the tags is relied on. -/
def CommitmentTimeLock : Nat := 0

/-- External lnwallet witness-type tag (not in src/): offered htlc timeout
output. -/
def HtlcOfferedTimeout : Nat := 3

/-- Whether a character list occurs at the head of another. -/
def matchesAt : List Char → List Char → Bool
  | [], _ => true
  | _ :: _, [] => false
  | p :: ps, c :: cs => p == c && matchesAt ps cs

/-- Whether a character list occurs anywhere inside another. -/
def listContains (pat : List Char) : List Char → Bool
  | [] => matchesAt pat []
  | c :: rest => matchesAt pat (c :: rest) || listContains pat rest

/-- Go strings.Contains: whether pat occurs as a substring of s. -/
def goContains (s pat : String) : Bool := listContains pat.toList s.toList

/-- Modelled from the spec: TxHash is the double-SHA256 transaction
identifier (computed outside src/). Only determinism and the fixed 32-byte
shape are relied on, so the serialization bytes padded or truncated to 32
bytes stand in for the hash. -/
def txHash (tx : MsgTx) : List Nat :=
  (serializeTx tx ++ List.replicate 32 0).take 32

/-- The configuration fields of NurseryConfig read by the embedded logic. -/
structure NurseryConfig where
  confDepth : Nat
  pruningDepth : Nat
deriving DecidableEq, Repr

/-- One invocation's view of the external collaborators: wallet script
generation, fee estimation, per-input signing, transaction broadcasting,
confirmation registration, and the store and channel-database write results
used by ingress. Each is an explicit input of the pure embedding. -/
structure Oracle where
  genScript : Except String (List Nat)
  feePerWeight : Nat
  buildWitness : Nat → kidOutput → Except String (List (List Nat))
  publish : MsgTx → Option String
  register : List Nat → Except String Unit
  incubateResult : Except String Unit
  markClosedResult : Except String Unit

/-- Modelled from the spec: the NurseryStore state visible to graduateClass
(nursery_store.go is outside src/). FetchClass returns the finalized sweep
transaction, the kindergarten outputs and the crib outputs at a height;
LastFinalizedHeight returns the scalar lfh. -/
structure Store where
  lfh : Nat
  fstx : Nat → Option MsgTx
  kgtnAt : Nat → List kidOutput
  cribsAt : Nat → List babyOutput

/-- Modelled from the spec: FinalizeKinder writes the finalized sweep
transaction for the height and raises the last finalized height to at least
that height. -/
def Store.finalizeKinder (s : Store) (h : Nat) (tx : Option MsgTx) : Store :=
  { s with fstx := fun h2 => if h2 = h then tx else s.fstx h2,
           lfh := max s.lfh h }

/-- Modelled from the spec: PurgeHeight drops the finalized sweep
transaction and the graduated entries stored at the height. -/
def Store.purgeHeight (s : Store) (h : Nat) : Store :=
  { s with fstx := fun h2 => if h2 = h then none else s.fstx h2 }

/-- Observable calls made by the nursery to its collaborators, in order. -/
inductive Event where
  | finalizeKinder (h : Nat) (tx : Option MsgTx)
  | publishSweep (tx : MsgTx)
  | publishCrib (tx : MsgTx)
  | registerConf (txid : List Nat) (depth : Nat) (hint : Nat)
  | purgeHeight (h : Nat)
  | markChanFullyClosed (cp : OutPoint)
  | incubate (comm : Option kidOutput) (babies : List babyOutput)
deriving DecidableEq, Repr

/-- The fixed witness-weight table of createSweepTx, keyed by witness type;
unrecognized tags have no entry. -/
def witnessWeight (wt : Nat) : Option Nat :=
  if wt = CommitmentTimeLock then some ToLocalTimeoutWitnessSize
  else if wt = HtlcOfferedTimeout then some OfferedHtlcTimeoutWitnessSize
  else none

/-- The input-gathering loop of createSweepTx: starting from the base
transaction weight, each recognized output adds its input size and witness
weight and joins the input list; outputs with an unrecognized witness type
are skipped (with a warning, not modelled) and contribute nothing. The
running weight is a Go uint64 and wraps accordingly. -/
def gatherSweepInputs (kgtn : List kidOutput) : Nat × List kidOutput :=
  kgtn.foldl
    (fun acc k =>
      match witnessWeight k.witnessType with
      | none => acc
      | some ww => ((acc.1 + 4 * InputSize + ww) % 2 ^ 64, acc.2 ++ [k]))
    ((4 * BaseSweepTxSize + WitnessHeaderSize) % 2 ^ 64, [])

/-- The running total of input amounts, summed with Go int64 wrap-around. -/
def sweepTotal (inputs : List kidOutput) : Int :=
  inputs.foldl (fun a o => wrap64 (a + o.amt)) 0

/-- The transaction fee of sweepCsvSpendableOutputsTxn: weight times fee
rate as uint64, reinterpreted as a signed amount. -/
def sweepFee (txWeight feePerWeight : Nat) : Int :=
  wrap64 ((txWeight * feePerWeight : Nat) : Int)

/-- Maximum number of satoshis, from btcd chaincfg. -/
def maxSatoshi : Int := 21000000 * 100000000

/-- Modelled from the spec: blockchain.CheckTransactionSanity (btcd, outside
src/), restricted to the structural checks the spec names: inputs and
outputs non-empty, every output value non-negative and at most the maximum
number of satoshis. -/
def checkTransactionSanity (tx : MsgTx) : Except String Unit :=
  if tx.txIn.isEmpty then .error "transaction has no inputs"
  else if tx.txOut.isEmpty then .error "transaction has no outputs"
  else if tx.txOut.any (fun o => decide (o.value < 0)) then
    .error "transaction output has negative value"
  else if tx.txOut.any (fun o => decide (maxSatoshi < o.value)) then
    .error "transaction output value is higher than max allowed value"
  else .ok ()

/-- The unsigned sweep transaction skeleton: version 2, one output paying
the total minus the fee to the generated script, and one input per accepted
output carrying that output's blocks-to-maturity as its sequence number. -/
def sweepSkeleton (pkScript : List Nat) (txWeight feePerWeight : Nat)
    (inputs : List kidOutput) : MsgTx :=
  { version := 2,
    txIn := inputs.map (fun i =>
      { previousOutPoint := i.outpoint,
        sequence := i.blocksToMaturity,
        witness := [] }),
    txOut := [{ value := wrap64 (sweepTotal inputs - sweepFee txWeight feePerWeight),
                pkScript := pkScript }],
    lockTime := 0 }

/-- The witness-attachment loop of sweepCsvSpendableOutputsTxn: each input
in order receives the witness produced by the external signer for its index;
the first signing error aborts. -/
def addWitnesses (ora : Oracle) : Nat → List kidOutput → Except String (List TxIn)
  | _, [] => .ok []
  | idx, k :: ks =>
    match ora.buildWitness idx k with
    | .error e => .error e
    | .ok w =>
      match addWitnesses ora (idx + 1) ks with
      | .error e => .error e
      | .ok rest =>
        .ok ({ previousOutPoint := k.outpoint,
               sequence := k.blocksToMaturity,
               witness := w } :: rest)

/-- sweepCsvSpendableOutputsTxn from utxonursery.go: generate the sweep
script, sum the inputs, compute the fee from the weight estimate, assemble
the version-2 skeleton, run the sanity check, then attach a witness to every
input. -/
def sweepCsvSpendableOutputsTxn (ora : Oracle) (txWeight : Nat)
    (inputs : List kidOutput) : Except String MsgTx :=
  match ora.genScript with
  | .error e => .error e
  | .ok pkScript =>
    let tx0 := sweepSkeleton pkScript txWeight ora.feePerWeight inputs
    match checkTransactionSanity tx0 with
    | .error e => .error e
    | .ok _ =>
      match addWitnesses ora 0 inputs with
      | .error e => .error e
      | .ok ins => .ok { tx0 with txIn := ins }

/-- createSweepTx from utxonursery.go: gather the recognized inputs and the
weight estimate, then build the signed sweep transaction. -/
def createSweepTx (ora : Oracle) (kgtnOutputs : List kidOutput) :
    Except String MsgTx :=
  let acc := gatherSweepInputs kgtnOutputs
  sweepCsvSpendableOutputsTxn ora acc.1 acc.2

/-- The registration tail of sweepGraduatingKinders: register a confirmation
watcher on the sweep txid at the configured depth, hinted at the class
height. -/
def sweepRegisterKinders (cfg : NurseryConfig) (ora : Oracle)
    (classHeight : Nat) (finalTx : MsgTx) : Except String Unit × List Event :=
  match ora.register (txHash finalTx) with
  | .error e =>
    (.error e,
     [.publishSweep finalTx, .registerConf (txHash finalTx) cfg.confDepth classHeight])
  | .ok _ =>
    (.ok (),
     [.publishSweep finalTx, .registerConf (txHash finalTx) cfg.confDepth classHeight])

/-- sweepGraduatingKinders from utxonursery.go: broadcast the finalized
sweep transaction, treating a publish error whose message contains the
substring TX rejected as soft; any other publish error aborts. On the soft
or success path, register the confirmation watcher. -/
def sweepGraduatingKinders (cfg : NurseryConfig) (ora : Oracle)
    (classHeight : Nat) (finalTx : MsgTx) : Except String Unit × List Event :=
  match ora.publish finalTx with
  | some e =>
    if goContains e "TX rejected:" then
      sweepRegisterKinders cfg ora classHeight finalTx
    else (.error e, [.publishSweep finalTx])
  | none => sweepRegisterKinders cfg ora classHeight finalTx

/-- The registration tail of sweepCribOutput: register a confirmation
watcher on the timeout txid, which is the hash recorded in the baby
outpoint. -/
def sweepRegisterCrib (cfg : NurseryConfig) (ora : Oracle)
    (classHeight : Nat) (baby : babyOutput) : Except String Unit × List Event :=
  match ora.register baby.kid.outpoint.hash with
  | .error e =>
    (.error e,
     [.publishCrib baby.timeoutTx,
      .registerConf baby.kid.outpoint.hash cfg.confDepth classHeight])
  | .ok _ =>
    (.ok (),
     [.publishCrib baby.timeoutTx,
      .registerConf baby.kid.outpoint.hash cfg.confDepth classHeight])

/-- sweepCribOutput from utxonursery.go: broadcast the presigned htlc
timeout transaction with the same soft-error discipline, then register for
its confirmation. -/
def sweepCribOutput (cfg : NurseryConfig) (ora : Oracle) (classHeight : Nat)
    (baby : babyOutput) : Except String Unit × List Event :=
  match ora.publish baby.timeoutTx with
  | some e =>
    if goContains e "TX rejected:" then
      sweepRegisterCrib cfg ora classHeight baby
    else (.error e, [.publishCrib baby.timeoutTx])
  | none => sweepRegisterCrib cfg ora classHeight baby

/-- The crib loop of graduateClass: sweep each crib output in order,
stopping at the first error. -/
def sweepCribs (cfg : NurseryConfig) (ora : Oracle) (classHeight : Nat) :
    List babyOutput → Except String Unit × List Event
  | [] => (.ok (), [])
  | b :: bs =>
    match sweepCribOutput cfg ora classHeight b with
    | (.error e, ev) => (.error e, ev)
    | (.ok _, ev) =>
      match sweepCribs cfg ora classHeight bs with
      | (r, evs) => (r, ev ++ evs)

/-- The finalize phase of graduateClass: when the class height is above the
last finalized height, craft the sweep transaction if there are kindergarten
outputs (keeping the fetched transaction otherwise) and persist it through
FinalizeKinder; when the height was already finalized, reuse the fetched
transaction and leave the store untouched. -/
def finalizePhase (ora : Oracle) (s : Store) (classHeight : Nat) :
    Except String (Option MsgTx × Store × List Event) :=
  if s.lfh < classHeight then
    match (if 0 < (s.kgtnAt classHeight).length then
             (createSweepTx ora (s.kgtnAt classHeight)).map some
           else .ok (s.fstx classHeight)) with
    | .error e => .error e
    | .ok ftx =>
      .ok (ftx, s.finalizeKinder classHeight ftx,
           [.finalizeKinder classHeight ftx])
  else .ok (s.fstx classHeight, s, [])

/-- graduateClass from utxonursery.go: fetch the class, finalize the
kindergarten sweep transaction if the height is new, broadcast the finalized
transaction if present, broadcast every crib timeout transaction, and purge
the height below the pruning depth. Returns the Go error result, the store
after the transactional writes, and the ordered trace of collaborator
calls. -/
def graduateClass (cfg : NurseryConfig) (ora : Oracle) (s : Store)
    (classHeight : Nat) : Except String Unit × Store × List Event :=
  match finalizePhase ora s classHeight with
  | .error e => (.error e, s, [])
  | .ok (ftx, s1, ev1) =>
    match (match ftx with
           | some t => sweepGraduatingKinders cfg ora classHeight t
           | none => (.ok (), [])) with
    | (.error e, ev2) => (.error e, s1, ev1 ++ ev2)
    | (.ok _, ev2) =>
      match sweepCribs cfg ora classHeight (s.cribsAt classHeight) with
      | (.error e, ev3) => (.error e, s1, ev1 ++ ev2 ++ ev3)
      | (.ok _, ev3) =>
        if classHeight ≤ cfg.pruningDepth then
          (.ok (), s1, ev1 ++ ev2 ++ ev3)
        else
          (.ok (), s1.purgeHeight (classHeight - cfg.pruningDepth),
           ev1 ++ ev2 ++ ev3 ++ [.purgeHeight (classHeight - cfg.pruningDepth)])

/-- Fold graduateClass at one height over a list of per-invocation oracles,
threading the store and concatenating the traces. -/
def iterateGraduate (cfg : NurseryConfig) (classHeight : Nat) :
    List Oracle → Store → Store × List Event
  | [], s => (s, [])
  | ora :: oras, s =>
    let r := graduateClass cfg ora s classHeight
    let rest := iterateGraduate cfg classHeight oras r.2.1
    (rest.1, r.2.2 ++ rest.2)

/-- The sweep transactions broadcast for the kindergarten batch, in trace
order. -/
def sweepPubs (tr : List Event) : List MsgTx :=
  tr.filterMap (fun e =>
    match e with
    | .publishSweep t => some t
    | _ => none)

/-- lnwallet.OutgoingHtlcResolution (outside src/), restricted to the fields
the nursery reads: the absolute expiry, the presigned timeout transaction
and the sweep sign descriptor. -/
structure OutgoingHtlcResolution where
  expiry : Nat
  signedTimeoutTx : MsgTx
  sweepSignDesc : SignDesc
deriving DecidableEq, Repr

/-- lnwallet.ForceCloseSummary (outside src/), restricted to the fields the
nursery reads. -/
structure ForceCloseSummary where
  chanPoint : OutPoint
  selfOutpoint : OutPoint
  selfOutputMaturity : Nat
  selfOutputSignDesc : Option SignDesc
  htlcResolutions : List OutgoingHtlcResolution
deriving DecidableEq, Repr

/-- makeKidOutput from utxonursery.go. Modelled from the spec: the embedded
makeBreachedOutput (outside src/) records the amount carried by the sign
descriptor. The confirmation height starts at zero. -/
def makeKidOutput (outpoint originChanPoint : OutPoint)
    (blocksToMaturity : Nat) (witnessType : Nat) (signDescriptor : SignDesc) :
    kidOutput :=
  { amt := signDescriptor.outputValue,
    outpoint := outpoint,
    originChanPoint := originChanPoint,
    blocksToMaturity := blocksToMaturity,
    confHeight := 0,
    witnessType := witnessType,
    signDesc := signDescriptor }

/-- makeBabyOutput from utxonursery.go: wrap the future kidOutput built from
the sweep sign descriptor, together with the expiry and the presigned
timeout transaction of the resolution. -/
def makeBabyOutput (outpoint originChanPoint : OutPoint)
    (blocksToMaturity : Nat) (witnessType : Nat)
    (htlcResolution : OutgoingHtlcResolution) : babyOutput :=
  { kid := makeKidOutput outpoint originChanPoint blocksToMaturity
      witnessType htlcResolution.sweepSignDesc,
    expiry := htlcResolution.expiry,
    timeoutTx := htlcResolution.signedTimeoutTx }

/-- The commitment kid output built by IncubateOutputs: present exactly when
the self-output sign descriptor is present and the recorded amount is
strictly positive. -/
def incubateCommOutput (cs : ForceCloseSummary) : Option kidOutput :=
  match cs.selfOutputSignDesc with
  | none => none
  | some sd =>
    let selfOutput := makeKidOutput cs.selfOutpoint cs.chanPoint
      cs.selfOutputMaturity CommitmentTimeLock sd
    if 0 < selfOutput.amt then some selfOutput else none

/-- The baby output IncubateOutputs builds from one htlc resolution: the
outpoint is output zero of the presigned timeout transaction, and the
maturity is the commitment self-output maturity of the summary. -/
def mkIncubateBaby (cs : ForceCloseSummary) (r : OutgoingHtlcResolution) :
    babyOutput :=
  makeBabyOutput ⟨txHash r.signedTimeoutTx, 0⟩ cs.chanPoint
    cs.selfOutputMaturity HtlcOfferedTimeout r

/-- The htlc loop of IncubateOutputs: build a baby output per resolution and
keep those with strictly positive amount. -/
def incubateHtlcOutputs (cs : ForceCloseSummary) : List babyOutput :=
  cs.htlcResolutions.foldl
    (fun acc r =>
      let b := mkIncubateBaby cs r
      if 0 < b.kid.amt then acc ++ [b] else acc) []

/-- IncubateOutputs from utxonursery.go: build the commitment kid output and
the htlc baby outputs; when both are absent, immediately mark the channel
fully closed in the external channel database and return; otherwise persist
them through Incubate, and if a commitment output was incubated register a
confirmation watcher on its commitment txid hinted at the current height. -/
def IncubateOutputs (cfg : NurseryConfig) (ora : Oracle)
    (currentHeight : Nat) (cs : ForceCloseSummary) :
    Except String Unit × List Event :=
  let commOutput := incubateCommOutput cs
  let htlcOutputs := incubateHtlcOutputs cs
  if commOutput = none ∧ htlcOutputs = [] then
    (ora.markClosedResult, [.markChanFullyClosed cs.chanPoint])
  else
    match ora.incubateResult with
    | .error e => (.error e, [.incubate commOutput htlcOutputs])
    | .ok _ =>
      match commOutput with
      | none => (.ok (), [.incubate commOutput htlcOutputs])
      | some k =>
        match ora.register k.outpoint.hash with
        | .error e =>
          (.error e,
           [.incubate commOutput htlcOutputs,
            .registerConf k.outpoint.hash cfg.confDepth currentHeight])
        | .ok _ =>
          (.ok (),
           [.incubate commOutput htlcOutputs,
            .registerConf k.outpoint.hash cfg.confDepth currentHeight])

deriving instance DecidableEq for Except

/-- A concrete 32-byte hash used by witness checks. -/
def exHash : List Nat := List.replicate 32 7

/-- A concrete outpoint used by witness checks. -/
def exOutPoint : OutPoint := ⟨exHash, 1⟩

/-- A concrete sign descriptor used by witness checks. -/
def exSignDesc : SignDesc := ⟨500000, [1, 2, 3]⟩

/-- A concrete kid output used by witness checks. -/
def exKid : kidOutput :=
  { amt := 500000, outpoint := exOutPoint, originChanPoint := ⟨exHash, 0⟩,
    blocksToMaturity := 144, confHeight := 100,
    witnessType := CommitmentTimeLock, signDesc := exSignDesc }

/-- A concrete transaction used by witness checks. -/
def exTx : MsgTx :=
  { version := 2, txIn := [⟨exOutPoint, 144, [[1]]⟩],
    txOut := [⟨9000, [0, 20]⟩], lockTime := 0 }

/-- A concrete baby output used by witness checks. -/
def exBaby : babyOutput := ⟨200, exTx, exKid⟩

/-- A concrete oracle used by witness checks: wallet, estimator, signer,
broadcaster and store write results all succeed. -/
def exOracle : Oracle :=
  { genScript := .ok [0, 20],
    feePerWeight := 10,
    buildWitness := fun _ _ => .ok [[5]],
    publish := fun _ => none,
    register := fun _ => .ok (),
    incubateResult := .ok (),
    markClosedResult := .ok () }

/-- The sweep transaction the builder produces from exKid under exOracle. -/
def exSweepTx : MsgTx :=
  { version := 2, txIn := [⟨exOutPoint, 144, [[5]]⟩],
    txOut := [⟨494000, [0, 20]⟩], lockTime := 0 }

/-- A kid output with an unrecognized witness type, for witness checks. -/
def exKidUnknown : kidOutput := { exKid with witnessType := 77 }

/-- The sweep transaction built from exKidUnknown and exKid under exOracle:
the unknown-typed output is skipped, so the weight is 514 and the fee 5140. -/
def exSweepTx2 : MsgTx :=
  { version := 2, txIn := [⟨exOutPoint, 144, [[5]]⟩],
    txOut := [⟨494860, [0, 20]⟩], lockTime := 0 }

/-- A concrete nursery configuration used by witness checks. -/
def exCfg : NurseryConfig := ⟨6, 100⟩

/-- A concrete store with height 244 already finalized, for witness checks. -/
def exStore : Store :=
  { lfh := 300,
    fstx := fun h => if h = 244 then some exSweepTx else none,
    kgtnAt := fun h => if h = 244 then [exKid] else [],
    cribsAt := fun _ => [] }

/-- A concrete store with nothing finalized yet, for witness checks. -/
def exStore2 : Store :=
  { lfh := 0,
    fstx := fun _ => none,
    kgtnAt := fun h => if h = 244 then [exKid] else [],
    cribsAt := fun _ => [] }

/-- An oracle whose sweep-script generation fails, for witness checks. -/
def exOracleErr : Oracle := { exOracle with genScript := .error "boom" }

/-- An oracle whose broadcaster reports a soft, already-known rejection. -/
def exOracleSoft : Oracle :=
  { exOracle with publish := fun _ => some "TX rejected: duplicate" }

/-- An oracle whose broadcaster reports a hard failure. -/
def exOracleHard : Oracle :=
  { exOracle with publish := fun _ => some "connection refused" }

/-- A force-close summary with no incubatable outputs, for witness checks. -/
def exSummaryEmpty : ForceCloseSummary :=
  { chanPoint := exOutPoint, selfOutpoint := exOutPoint,
    selfOutputMaturity := 144, selfOutputSignDesc := none,
    htlcResolutions := [] }

/-- A concrete htlc resolution, for witness checks. -/
def exHtlcRes : OutgoingHtlcResolution := ⟨200, exTx, exSignDesc⟩

/-- A force-close summary with one positive htlc, for witness checks. -/
def exSummaryHtlc : ForceCloseSummary :=
  { chanPoint := exOutPoint, selfOutpoint := exOutPoint,
    selfOutputMaturity := 144, selfOutputSignDesc := none,
    htlcResolutions := [exHtlcRes] }

/-- The baby output incubated from exHtlcRes, for witness checks. -/
def exBabyIncubated : babyOutput := mkIncubateBaby exSummaryHtlc exHtlcRes

theorem wrap64_eq_of_range (i : Int) (h1 : -(2 ^ 63) ≤ i) (h2 : i < 2 ^ 63) :
    wrap64 i = i := by
  unfold wrap64; omega

theorem toU64_lt (i : Int) : toU64 i < 2 ^ 64 := by
  unfold toU64; omega

theorem toInt64_toU64 (i : Int) (h : int64Range i) : toInt64 (toU64 i) = i := by
  unfold int64Range at h
  unfold toInt64 toU64
  split <;> omega

theorem readBytes_exact (b rest : List Nat) :
    readBytes b.length (b ++ rest) = some (b, rest) := by
  unfold readBytes
  rw [if_pos (by simp)]
  rw [List.take_left, List.drop_left]

theorem readUint16_put (n : Nat) (rest : List Nat) (h : n < 2 ^ 16) :
    readUint16 (putUint16be n ++ rest) = some (n, rest) := by
  have h2 : readBytes 2 (putUint16be n ++ rest) = some (putUint16be n, rest) :=
    readBytes_exact (putUint16be n) rest
  unfold readUint16
  rw [h2]
  simp only [beVal, putUint16be, List.foldl]
  congr 2
  omega

theorem readUint32_put (n : Nat) (rest : List Nat) (h : n < 2 ^ 32) :
    readUint32 (putUint32be n ++ rest) = some (n, rest) := by
  have h4 : readBytes 4 (putUint32be n ++ rest) = some (putUint32be n, rest) :=
    readBytes_exact (putUint32be n) rest
  unfold readUint32
  rw [h4]
  simp only [beVal, putUint32be, List.foldl]
  congr 2
  omega

theorem readUint64_put (n : Nat) (rest : List Nat) (h : n < 2 ^ 64) :
    readUint64 (putUint64be n ++ rest) = some (n, rest) := by
  have h8 : readBytes 8 (putUint64be n ++ rest) = some (putUint64be n, rest) :=
    readBytes_exact (putUint64be n) rest
  unfold readUint64
  rw [h8]
  simp only [beVal, putUint64be, List.foldl]
  congr 2
  omega

theorem readVarBytes_write32 (b rest : List Nat) (h : b.length = 32) :
    readVarBytes 32 (writeVarBytes b ++ rest) = some (b, rest) := by
  unfold writeVarBytes writeVarInt
  rw [h, if_pos (by norm_num)]
  show readVarBytes 32 (32 :: (b ++ rest)) = some (b, rest)
  simp only [readVarBytes]
  rw [if_pos (by constructor <;> norm_num)]
  rw [← h]
  exact readBytes_exact b rest

theorem readOutpoint_write (o : OutPoint) (rest : List Nat) (h : OutPointWF o) :
    readOutpoint (writeOutpoint o ++ rest) = some (o, rest) := by
  obtain ⟨h1, h2⟩ := h
  have htake : (o.hash ++ List.replicate 32 0).take 32 = o.hash := by
    rw [← h1]; exact List.take_left _ _
  unfold writeOutpoint
  rw [List.append_assoc]
  simp only [readOutpoint, readVarBytes_write32 o.hash (putUint32be o.index ++ rest) h1,
    readUint32_put o.index rest h2, htake]

theorem readSignDescriptor_write (sd : SignDesc) (rest : List Nat)
    (h : SignDescWF sd) :
    readSignDescriptor (writeSignDescriptor sd ++ rest) = some (sd, rest) := by
  obtain ⟨h1, h2⟩ := h
  unfold writeSignDescriptor
  rw [List.append_assoc, List.append_assoc]
  simp only [readSignDescriptor, readUint64_put _ _ (toU64_lt sd.outputValue),
    readUint32_put _ _ h2, readBytes_exact sd.blob rest,
    toInt64_toU64 sd.outputValue h1]

theorem readWitnessItem_write (w rest : List Nat) (h : w.length < 2 ^ 32) :
    readWitnessItem (putUint32be w.length ++ w ++ rest) = some (w, rest) := by
  unfold readWitnessItem
  rw [List.append_assoc]
  rw [readUint32_put _ _ h]
  exact readBytes_exact w rest

theorem readList_concatMap (rd : List Nat → Option (α × List Nat))
    (enc : α → List Nat) (xs : List α) (rest : List Nat)
    (hrt : ∀ x ∈ xs, ∀ r, rd (enc x ++ r) = some (x, r)) :
    readList rd xs.length (concatMap enc xs ++ rest) = some (xs, rest) := by
  induction xs generalizing rest with
  | nil => simp [concatMap, readList]
  | cons x xs ih =>
    have h1 := hrt x (List.mem_cons_self x xs)
    simp only [concatMap, List.length_cons, readList, List.append_assoc, h1]
    rw [ih rest (fun y hy r => hrt y (List.mem_cons_of_mem _ hy) r)]

theorem deserializeTxIn_write (i : TxIn) (rest : List Nat) (h : TxInWF i) :
    deserializeTxIn (serializeTxIn i ++ rest) = some (i, rest) := by
  obtain ⟨hop, hseq, hlen, hws⟩ := h
  unfold serializeTxIn
  simp only [List.append_assoc]
  have hitems : readList readWitnessItem i.witness.length
      (concatMap (fun w => putUint32be w.length ++ w) i.witness ++ rest) =
      some (i.witness, rest) :=
    readList_concatMap readWitnessItem (fun w => putUint32be w.length ++ w)
      i.witness rest
      (fun w hw r => readWitnessItem_write w r (hws w hw))
  simp only [deserializeTxIn, readOutpoint_write i.previousOutPoint _ hop,
    readUint32_put i.sequence _ hseq, readUint32_put i.witness.length _ hlen,
    hitems]

theorem deserializeTxOut_write (o : TxOut) (rest : List Nat) (h : TxOutWF o) :
    deserializeTxOut (serializeTxOut o ++ rest) = some (o, rest) := by
  obtain ⟨hv, hlen⟩ := h
  unfold serializeTxOut
  rw [List.append_assoc, List.append_assoc]
  simp only [deserializeTxOut, readUint64_put _ _ (toU64_lt o.value),
    readUint32_put _ _ hlen, readBytes_exact o.pkScript rest,
    toInt64_toU64 o.value hv]

theorem deserializeTx_write (tx : MsgTx) (rest : List Nat) (h : MsgTxWF tx) :
    deserializeTx (serializeTx tx ++ rest) = some (tx, rest) := by
  obtain ⟨hv, hlt, hnin, hnout, hins, houts⟩ := h
  unfold serializeTx
  simp only [List.append_assoc]
  have hinl : readList deserializeTxIn tx.txIn.length
      (concatMap serializeTxIn tx.txIn ++
        (putUint32be tx.txOut.length ++
          (concatMap serializeTxOut tx.txOut ++
            (putUint32be tx.lockTime ++ rest)))) =
      some (tx.txIn,
        putUint32be tx.txOut.length ++
          (concatMap serializeTxOut tx.txOut ++
            (putUint32be tx.lockTime ++ rest))) :=
    readList_concatMap deserializeTxIn serializeTxIn tx.txIn _
      (fun x hx r => deserializeTxIn_write x r (hins x hx))
  have houtl : readList deserializeTxOut tx.txOut.length
      (concatMap serializeTxOut tx.txOut ++ (putUint32be tx.lockTime ++ rest)) =
      some (tx.txOut, putUint32be tx.lockTime ++ rest) :=
    readList_concatMap deserializeTxOut serializeTxOut tx.txOut _
      (fun x hx r => deserializeTxOut_write x r (houts x hx))
  simp only [deserializeTx, readUint32_put tx.version _ hv,
    readUint32_put tx.txIn.length _ hnin, hinl,
    readUint32_put tx.txOut.length _ hnout, houtl,
    readUint32_put tx.lockTime _ hlt]

theorem kidOutput_decode_encode (k : kidOutput) (rest : List Nat)
    (h : kidWF k) :
    kidOutput.Decode (kidOutput.Encode k ++ rest) = some (k, rest) := by
  obtain ⟨ha, hop, hocp, hbtm, hch, hwt, hsd⟩ := h
  unfold kidOutput.Encode
  simp only [List.append_assoc]
  simp only [kidOutput.Decode, readUint64_put _ _ (toU64_lt k.amt),
    readOutpoint_write k.outpoint _ hop, readOutpoint_write k.originChanPoint _ hocp,
    readUint32_put k.blocksToMaturity _ hbtm, readUint32_put k.confHeight _ hch,
    readUint16_put k.witnessType _ hwt, readSignDescriptor_write k.signDesc rest hsd,
    toInt64_toU64 k.amt ha]

theorem babyOutput_decode_encode (b : babyOutput) (rest : List Nat)
    (h : babyWF b) :
    babyOutput.Decode (babyOutput.Encode b ++ rest) = some (b, rest) := by
  obtain ⟨he, htx, hk⟩ := h
  unfold babyOutput.Encode
  simp only [List.append_assoc]
  simp only [babyOutput.Decode, readUint32_put b.expiry _ he,
    deserializeTx_write b.timeoutTx _ htx,
    kidOutput_decode_encode b.kid rest hk]

/-- C9: for every kid output and every baby output, decoding the byte
stream produced by Encode reconstructs an output equal in all recorded
fields (amount, outpoint, origin channel point, blocks to maturity,
confirmation height, witness type, sign descriptor; plus expiry and timeout
transaction for a baby), the layout being the big-endian field order fixed
by the encoder definitions. -/
theorem C9_encode_decode_roundtrip :
    (∀ (k : kidOutput) (rest : List Nat), kidWF k →
      kidOutput.Decode (kidOutput.Encode k ++ rest) = some (k, rest)) ∧
    (∀ (b : babyOutput) (rest : List Nat), babyWF b →
      babyOutput.Decode (babyOutput.Encode b ++ rest) = some (b, rest)) :=
  ⟨fun k rest h => kidOutput_decode_encode k rest h,
   fun b rest h => babyOutput_decode_encode b rest h⟩

/-- Witness for C9 at a concrete kid and baby output. -/
theorem C9_encode_decode_roundtrip_witness :
    (kidWF exKid ∧ babyWF exBaby) ∧
    kidOutput.Decode (kidOutput.Encode exKid ++ [9]) = some (exKid, [9]) ∧
    babyOutput.Decode (babyOutput.Encode exBaby ++ []) = some (exBaby, []) :=
  ⟨⟨by decide, by decide⟩,
   C9_encode_decode_roundtrip.1 exKid [9] (by decide),
   C9_encode_decode_roundtrip.2 exBaby [] (by decide)⟩

theorem sweepTotal_fold (inputs : List kidOutput) (a : Int) (ha : 0 ≤ a)
    (hpos : ∀ i ∈ inputs, 0 ≤ i.amt)
    (hsum : a + (inputs.map (fun i => i.amt)).sum < 2 ^ 63) :
    inputs.foldl (fun x o => wrap64 (x + o.amt)) a =
      a + (inputs.map (fun i => i.amt)).sum := by
  induction inputs generalizing a with
  | nil => simp
  | cons i is ih =>
    have hi : 0 ≤ i.amt := hpos i (List.mem_cons_self i is)
    have hrest : 0 ≤ (is.map (fun j => j.amt)).sum :=
      List.sum_nonneg (fun x hx => by
        obtain ⟨j, hj, rfl⟩ := List.mem_map.mp hx
        exact hpos j (List.mem_cons_of_mem _ hj))
    simp only [List.map_cons, List.sum_cons] at hsum
    have hw : wrap64 (a + i.amt) = a + i.amt :=
      wrap64_eq_of_range _ (by omega) (by omega)
    simp only [List.foldl_cons, List.map_cons, List.sum_cons, hw]
    rw [ih (a + i.amt) (by omega)
      (fun j hj => hpos j (List.mem_cons_of_mem _ hj)) (by omega)]
    ring

theorem sweepTotal_eq (inputs : List kidOutput)
    (hpos : ∀ i ∈ inputs, 0 ≤ i.amt)
    (hsum : (inputs.map (fun i => i.amt)).sum < 2 ^ 63) :
    sweepTotal inputs = (inputs.map (fun i => i.amt)).sum := by
  unfold sweepTotal
  have := sweepTotal_fold inputs 0 le_rfl hpos (by omega)
  omega

theorem gather_snd_fold (l : List kidOutput) (a : Nat) (s : List kidOutput) :
    (l.foldl
      (fun acc k =>
        match witnessWeight k.witnessType with
        | none => acc
        | some ww => ((acc.1 + 4 * InputSize + ww) % 2 ^ 64, acc.2 ++ [k]))
      (a, s)).2 =
    s ++ l.filter (fun k => (witnessWeight k.witnessType).isSome) := by
  induction l generalizing a s with
  | nil => simp
  | cons k ks ih =>
    cases hww : witnessWeight k.witnessType with
    | none =>
      simp only [List.foldl_cons, hww, List.filter_cons, Option.isSome_none,
        Bool.false_eq_true, if_false, ih]
    | some ww =>
      simp only [List.foldl_cons, hww, List.filter_cons, Option.isSome_some,
        if_true, ih]
      simp [List.append_assoc]

theorem gather_fst_fold (l : List kidOutput) (a : Nat) (s : List kidOutput)
    (hbound : a + ((l.filter fun k => (witnessWeight k.witnessType).isSome).map
        (fun k => 4 * InputSize + (witnessWeight k.witnessType).getD 0)).sum < 2 ^ 64) :
    (l.foldl
      (fun acc k =>
        match witnessWeight k.witnessType with
        | none => acc
        | some ww => ((acc.1 + 4 * InputSize + ww) % 2 ^ 64, acc.2 ++ [k]))
      (a, s)).1 =
    a + ((l.filter fun k => (witnessWeight k.witnessType).isSome).map
        (fun k => 4 * InputSize + (witnessWeight k.witnessType).getD 0)).sum := by
  induction l generalizing a s with
  | nil => simp
  | cons k ks ih =>
    cases hww : witnessWeight k.witnessType with
    | none =>
      simp only [List.filter_cons, hww, Option.isSome_none, Bool.false_eq_true,
        if_false] at hbound ⊢
      simp only [List.foldl_cons, hww]
      exact ih a s hbound
    | some ww =>
      simp only [List.filter_cons, hww, Option.isSome_some, if_true,
        List.map_cons, List.sum_cons, Option.getD_some] at hbound ⊢
      simp only [List.foldl_cons, hww]
      have hmod : (a + 4 * InputSize + ww) % 2 ^ 64 = a + 4 * InputSize + ww :=
        Nat.mod_eq_of_lt (by omega)
      rw [hmod, ih (a + 4 * InputSize + ww) (s ++ [k]) (by omega)]
      omega

theorem gatherSweepInputs_eq (kgtn : List kidOutput)
    (hbound : 4 * BaseSweepTxSize + WitnessHeaderSize +
      ((kgtn.filter fun k => (witnessWeight k.witnessType).isSome).map
        (fun k => 4 * InputSize + (witnessWeight k.witnessType).getD 0)).sum < 2 ^ 64) :
    gatherSweepInputs kgtn =
      (4 * BaseSweepTxSize + WitnessHeaderSize +
        ((kgtn.filter fun k => (witnessWeight k.witnessType).isSome).map
          (fun k => 4 * InputSize + (witnessWeight k.witnessType).getD 0)).sum,
       kgtn.filter fun k => (witnessWeight k.witnessType).isSome) := by
  have hinit : (4 * BaseSweepTxSize + WitnessHeaderSize) % 2 ^ 64 =
      4 * BaseSweepTxSize + WitnessHeaderSize :=
    Nat.mod_eq_of_lt (by norm_num [BaseSweepTxSize, WitnessHeaderSize])
  unfold gatherSweepInputs
  rw [hinit] at *
  refine Prod.ext ?_ ?_
  · rw [gather_fst_fold kgtn _ [] hbound]
  · rw [gather_snd_fold kgtn _ []]
    simp

theorem addWitnesses_ok (ora : Oracle) (idx : Nat) (inputs : List kidOutput)
    (ins : List TxIn) (h : addWitnesses ora idx inputs = .ok ins) :
    ins.map (fun i => i.previousOutPoint) = inputs.map (fun k => k.outpoint) ∧
    ins.map (fun i => i.sequence) = inputs.map (fun k => k.blocksToMaturity) := by
  induction inputs generalizing idx ins with
  | nil =>
    simp only [addWitnesses] at h
    cases h
    simp
  | cons k ks ih =>
    simp only [addWitnesses] at h
    cases hbw : ora.buildWitness idx k with
    | error e => rw [hbw] at h; cases h
    | ok w =>
      rw [hbw] at h
      cases hrest : addWitnesses ora (idx + 1) ks with
      | error e => rw [hrest] at h; cases h
      | ok rest =>
        rw [hrest] at h
        cases h
        obtain ⟨h1, h2⟩ := ih (idx + 1) rest hrest
        simp [h1, h2]

theorem sweepCsv_ok_fields (ora : Oracle) (w : Nat) (inputs : List kidOutput)
    (tx : MsgTx) (hok : sweepCsvSpendableOutputsTxn ora w inputs = .ok tx) :
    tx.version = 2 ∧
    (∃ pk, ora.genScript = .ok pk ∧
      tx.txOut = [{ value := wrap64 (sweepTotal inputs - sweepFee w ora.feePerWeight),
                    pkScript := pk }]) ∧
    tx.txIn.map (fun i => i.previousOutPoint) = inputs.map (fun k => k.outpoint) ∧
    tx.txIn.map (fun i => i.sequence) = inputs.map (fun k => k.blocksToMaturity) := by
  unfold sweepCsvSpendableOutputsTxn at hok
  cases hgs : ora.genScript with
  | error e => simp only [hgs] at hok; exact Except.noConfusion hok
  | ok pk =>
    simp only [hgs] at hok
    cases hsan : checkTransactionSanity (sweepSkeleton pk w ora.feePerWeight inputs) with
    | error e => simp only [hsan] at hok; exact Except.noConfusion hok
    | ok u =>
      simp only [hsan] at hok
      cases haw : addWitnesses ora 0 inputs with
      | error e => simp only [haw] at hok; exact Except.noConfusion hok
      | ok ins =>
        simp only [haw] at hok
        injection hok with h
        subst h
        obtain ⟨h1, h2⟩ := addWitnesses_ok ora 0 inputs ins haw
        exact ⟨rfl, ⟨pk, rfl, rfl⟩, h1, h2⟩

/-- C2: for every non-empty accepted input list, a successful run of
sweepCsvSpendableOutputsTxn yields a version-2 transaction with exactly one
output paying the input total minus the computed fee to the generated sweep
script, and exactly one input per accepted output whose sequence number is
that output's blocks-to-maturity. The range hypotheses keep the Go int64
and uint64 arithmetic away from wrap-around. -/
theorem C2_sweep_txn_structure (ora : Oracle) (txWeight : Nat)
    (inputs : List kidOutput) (tx : MsgTx)
    (hne : inputs ≠ [])
    (hpos : ∀ i ∈ inputs, 0 ≤ i.amt)
    (hsum : (inputs.map (fun i => i.amt)).sum < 2 ^ 63)
    (hfee : txWeight * ora.feePerWeight < 2 ^ 63)
    (hok : sweepCsvSpendableOutputsTxn ora txWeight inputs = .ok tx) :
    tx.version = 2 ∧
    (∃ pk, ora.genScript = .ok pk ∧
      tx.txOut = [{ value := (inputs.map (fun i => i.amt)).sum -
                      ((txWeight * ora.feePerWeight : Nat) : Int),
                    pkScript := pk }]) ∧
    tx.txIn.length = inputs.length ∧
    tx.txIn.map (fun i => i.sequence) = inputs.map (fun k => k.blocksToMaturity) ∧
    tx.txIn.map (fun i => i.previousOutPoint) = inputs.map (fun k => k.outpoint) := by
  obtain ⟨hv, ⟨pk, hgs, hout⟩, hprev, hseq⟩ :=
    sweepCsv_ok_fields ora txWeight inputs tx hok
  have hs0 : 0 ≤ (inputs.map (fun i => i.amt)).sum :=
    List.sum_nonneg (fun x hx => by
      obtain ⟨j, hj, rfl⟩ := List.mem_map.mp hx
      exact hpos j hj)
  have hfee0 : (0 : Int) ≤ ((txWeight * ora.feePerWeight : Nat) : Int) :=
    Int.natCast_nonneg _
  have hfee1 : ((txWeight * ora.feePerWeight : Nat) : Int) < 2 ^ 63 := by
    exact_mod_cast hfee
  have e1 : sweepTotal inputs = (inputs.map (fun i => i.amt)).sum :=
    sweepTotal_eq inputs hpos hsum
  have e2 : sweepFee txWeight ora.feePerWeight =
      ((txWeight * ora.feePerWeight : Nat) : Int) := by
    unfold sweepFee
    exact wrap64_eq_of_range _ (by linarith) hfee1
  have e3 : wrap64 ((inputs.map (fun i => i.amt)).sum -
      ((txWeight * ora.feePerWeight : Nat) : Int)) =
      (inputs.map (fun i => i.amt)).sum -
        ((txWeight * ora.feePerWeight : Nat) : Int) :=
    wrap64_eq_of_range _ (by linarith) (by linarith)
  refine ⟨hv, ⟨pk, hgs, ?_⟩, ?_, hseq, hprev⟩
  · rw [hout, e1, e2, e3]
  · have := congrArg List.length hseq
    simpa using this

/-- Witness for C2 at one concrete input under exOracle at weight 600. -/
theorem C2_sweep_txn_structure_witness :
    (([exKid] : List kidOutput) ≠ [] ∧ (∀ i ∈ [exKid], 0 ≤ i.amt) ∧
      ([exKid].map (fun i => i.amt)).sum < 2 ^ 63 ∧
      600 * exOracle.feePerWeight < 2 ^ 63 ∧
      sweepCsvSpendableOutputsTxn exOracle 600 [exKid] = .ok exSweepTx) ∧
    exSweepTx.version = 2 :=
  ⟨⟨by decide, by decide, by decide, by decide, by decide⟩,
   (C2_sweep_txn_structure exOracle 600 [exKid] exSweepTx (by decide) (by decide)
     (by decide) (by decide) (by decide)).1⟩

theorem gather_fst_filter (l : List kidOutput) (a : Nat) (s s2 : List kidOutput) :
    (l.foldl
      (fun acc k =>
        match witnessWeight k.witnessType with
        | none => acc
        | some ww => ((acc.1 + 4 * InputSize + ww) % 2 ^ 64, acc.2 ++ [k]))
      (a, s)).1 =
    ((l.filter fun k => (witnessWeight k.witnessType).isSome).foldl
      (fun acc k =>
        match witnessWeight k.witnessType with
        | none => acc
        | some ww => ((acc.1 + 4 * InputSize + ww) % 2 ^ 64, acc.2 ++ [k]))
      (a, s2)).1 := by
  induction l generalizing a s s2 with
  | nil => simp
  | cons k ks ih =>
    cases hww : witnessWeight k.witnessType with
    | none =>
      simp only [List.foldl_cons, hww, List.filter_cons, Option.isSome_none,
        Bool.false_eq_true, if_false]
      exact ih a s s2
    | some ww =>
      simp only [List.foldl_cons, hww, List.filter_cons, Option.isSome_some,
        if_true]
      exact ih _ _ _

/-- C5: the estimated transaction weight is 4 times the base sweep size plus
the witness header plus, per accepted input, 4 times the input size plus the
fixed witness weight of its type; the fee is that weight times the fee rate
per weight unit; and the skeleton subtracts exactly this fee from the output
value. The bounds keep the Go uint64 and int64 arithmetic away from
wrap-around. -/
theorem C5_weight_fee_formula (kgtn : List kidOutput) (txWeight feePerWeight : Nat)
    (hbound : 4 * BaseSweepTxSize + WitnessHeaderSize +
      ((kgtn.filter fun k => (witnessWeight k.witnessType).isSome).map
        (fun k => 4 * InputSize + (witnessWeight k.witnessType).getD 0)).sum < 2 ^ 64)
    (hfee : txWeight * feePerWeight < 2 ^ 63) :
    (gatherSweepInputs kgtn).1 =
      4 * BaseSweepTxSize + WitnessHeaderSize +
        ((kgtn.filter fun k => (witnessWeight k.witnessType).isSome).map
          (fun k => 4 * InputSize + (witnessWeight k.witnessType).getD 0)).sum ∧
    sweepFee txWeight feePerWeight = ((txWeight * feePerWeight : Nat) : Int) ∧
    ∀ pk inputs, (sweepSkeleton pk txWeight feePerWeight inputs).txOut =
      [{ value := wrap64 (sweepTotal inputs - sweepFee txWeight feePerWeight),
         pkScript := pk }] := by
  refine ⟨?_, ?_, fun pk inputs => rfl⟩
  · rw [gatherSweepInputs_eq kgtn hbound]
  · unfold sweepFee
    have h0 : (0 : Int) ≤ ((txWeight * feePerWeight : Nat) : Int) :=
      Int.natCast_nonneg _
    have h1 : ((txWeight * feePerWeight : Nat) : Int) < 2 ^ 63 := by
      exact_mod_cast hfee
    exact wrap64_eq_of_range _ (by linarith) h1

/-- Witness for C5 at a concrete class containing one recognized and one
unrecognized output. -/
theorem C5_weight_fee_formula_witness :
    (4 * BaseSweepTxSize + WitnessHeaderSize +
        (([exKidUnknown, exKid].filter fun k => (witnessWeight k.witnessType).isSome).map
          (fun k => 4 * InputSize + (witnessWeight k.witnessType).getD 0)).sum < 2 ^ 64 ∧
      600 * 10 < 2 ^ 63) ∧
    (gatherSweepInputs [exKidUnknown, exKid]).1 =
      4 * BaseSweepTxSize + WitnessHeaderSize +
        (([exKidUnknown, exKid].filter fun k => (witnessWeight k.witnessType).isSome).map
          (fun k => 4 * InputSize + (witnessWeight k.witnessType).getD 0)).sum :=
  ⟨⟨by decide, by decide⟩,
   (C5_weight_fee_formula [exKidUnknown, exKid] 600 10 (by decide) (by decide)).1⟩

/-- C3: outputs whose witness type is neither CommitmentTimeLock nor
HtlcOfferedTimeout are exactly the ones without a witness-weight entry; the
gathering loop accepts exactly the recognized outputs, the weight estimate
counts only them, the builder continues on the remaining inputs instead of
aborting, and a successful sweep spends exactly the recognized outputs. -/
theorem C3_skip_unknown_witness_types (ora : Oracle) (kgtn : List kidOutput) :
    (∀ wt : Nat, witnessWeight wt = none ↔
      wt ≠ CommitmentTimeLock ∧ wt ≠ HtlcOfferedTimeout) ∧
    (gatherSweepInputs kgtn).2 =
      kgtn.filter (fun k => (witnessWeight k.witnessType).isSome) ∧
    (gatherSweepInputs kgtn).1 =
      (gatherSweepInputs (kgtn.filter (fun k => (witnessWeight k.witnessType).isSome))).1 ∧
    createSweepTx ora kgtn =
      sweepCsvSpendableOutputsTxn ora (gatherSweepInputs kgtn).1
        (kgtn.filter (fun k => (witnessWeight k.witnessType).isSome)) ∧
    (∀ tx, createSweepTx ora kgtn = .ok tx →
      tx.txIn.map (fun i => i.previousOutPoint) =
        (kgtn.filter (fun k => (witnessWeight k.witnessType).isSome)).map
          (fun k => k.outpoint)) := by
  have hsnd : (gatherSweepInputs kgtn).2 =
      kgtn.filter (fun k => (witnessWeight k.witnessType).isSome) := by
    unfold gatherSweepInputs
    rw [gather_snd_fold kgtn _ []]
    simp
  have hfst : (gatherSweepInputs kgtn).1 =
      (gatherSweepInputs (kgtn.filter (fun k => (witnessWeight k.witnessType).isSome))).1 := by
    unfold gatherSweepInputs
    exact gather_fst_filter kgtn _ [] []
  have hcreate : createSweepTx ora kgtn =
      sweepCsvSpendableOutputsTxn ora (gatherSweepInputs kgtn).1
        (kgtn.filter (fun k => (witnessWeight k.witnessType).isSome)) := by
    show sweepCsvSpendableOutputsTxn ora (gatherSweepInputs kgtn).1
        (gatherSweepInputs kgtn).2 = _
    rw [hsnd]
  refine ⟨?_, hsnd, hfst, hcreate, ?_⟩
  · intro wt
    unfold witnessWeight
    constructor
    · intro h
      constructor <;> intro hc <;> subst hc <;>
        simp [CommitmentTimeLock, HtlcOfferedTimeout] at h
    · intro ⟨h1, h2⟩
      rw [if_neg h1, if_neg h2]
  · intro tx hok
    rw [hcreate] at hok
    exact (sweepCsv_ok_fields ora _ _ tx hok).2.2.1

/-- Witness for C3: with one unknown-typed and one recognized output the
builder succeeds and spends exactly the recognized output. -/
theorem C3_skip_unknown_witness_types_witness :
    (createSweepTx exOracle [exKidUnknown, exKid] = .ok exSweepTx2) ∧
    exSweepTx2.txIn.map (fun i => i.previousOutPoint) =
      ([exKidUnknown, exKid].filter
        (fun k => (witnessWeight k.witnessType).isSome)).map (fun k => k.outpoint) :=
  ⟨by decide,
   (C3_skip_unknown_witness_types exOracle [exKidUnknown, exKid]).2.2.2.2
     exSweepTx2 (by decide)⟩

theorem sweepPubs_append (a b : List Event) :
    sweepPubs (a ++ b) = sweepPubs a ++ sweepPubs b := by
  unfold sweepPubs
  exact List.filterMap_append a b _

theorem sGK_trace (cfg : NurseryConfig) (ora : Oracle) (h : Nat) (t : MsgTx) :
    (sweepGraduatingKinders cfg ora h t).2 = [.publishSweep t] ∨
    (sweepGraduatingKinders cfg ora h t).2 =
      [.publishSweep t, .registerConf (txHash t) cfg.confDepth h] := by
  unfold sweepGraduatingKinders sweepRegisterKinders
  cases hp : ora.publish t with
  | some e =>
    cases hr : ora.register (txHash t) <;>
      by_cases hc : goContains e "TX rejected:" = true <;>
      simp [hc, hr]
  | none =>
    cases hr : ora.register (txHash t) <;> simp [hr]

theorem sGK_pubs (cfg : NurseryConfig) (ora : Oracle) (h : Nat) (t : MsgTx) :
    sweepPubs (sweepGraduatingKinders cfg ora h t).2 = [t] := by
  rcases sGK_trace cfg ora h t with h1 | h1 <;> rw [h1] <;> rfl

theorem sGK_no_finalize (cfg : NurseryConfig) (ora : Oracle) (h : Nat) (t : MsgTx) :
    ∀ h2 tx2, Event.finalizeKinder h2 tx2 ∉ (sweepGraduatingKinders cfg ora h t).2 := by
  rcases sGK_trace cfg ora h t with h1 | h1 <;> rw [h1] <;> intro h2 tx2 <;> simp

theorem sGK_no_purge (cfg : NurseryConfig) (ora : Oracle) (h : Nat) (t : MsgTx) :
    ∀ h2, Event.purgeHeight h2 ∉ (sweepGraduatingKinders cfg ora h t).2 := by
  rcases sGK_trace cfg ora h t with h1 | h1 <;> rw [h1] <;> intro h2 <;> simp

theorem sCO_trace (cfg : NurseryConfig) (ora : Oracle) (h : Nat) (b : babyOutput) :
    (sweepCribOutput cfg ora h b).2 = [.publishCrib b.timeoutTx] ∨
    (sweepCribOutput cfg ora h b).2 =
      [.publishCrib b.timeoutTx,
       .registerConf b.kid.outpoint.hash cfg.confDepth h] := by
  unfold sweepCribOutput sweepRegisterCrib
  cases hp : ora.publish b.timeoutTx with
  | some e =>
    cases hr : ora.register b.kid.outpoint.hash <;>
      by_cases hc : goContains e "TX rejected:" = true <;>
      simp [hc, hr]
  | none =>
    cases hr : ora.register b.kid.outpoint.hash <;> simp [hr]

theorem sweepCribs_events (cfg : NurseryConfig) (ora : Oracle) (h : Nat)
    (bs : List babyOutput) :
    ∀ ev ∈ (sweepCribs cfg ora h bs).2,
      (∃ t, ev = Event.publishCrib t) ∨
      ∃ a d hh, ev = Event.registerConf a d hh := by
  induction bs with
  | nil => intro ev hev; simp [sweepCribs] at hev
  | cons b bs ih =>
    intro ev hev
    unfold sweepCribs at hev
    rcases hco : sweepCribOutput cfg ora h b with ⟨res, evs⟩
    rw [hco] at hev
    have hshape : evs = [Event.publishCrib b.timeoutTx] ∨
        evs = [Event.publishCrib b.timeoutTx,
               Event.registerConf b.kid.outpoint.hash cfg.confDepth h] := by
      have := sCO_trace cfg ora h b
      rw [hco] at this
      exact this
    cases res with
    | error e =>
      simp only at hev
      rcases hshape with h1 | h1 <;> rw [h1] at hev <;> simp at hev
      · exact Or.inl ⟨b.timeoutTx, hev⟩
      · rcases hev with hev | hev
        · exact Or.inl ⟨b.timeoutTx, hev⟩
        · exact Or.inr ⟨_, _, _, hev⟩
    | ok u =>
      simp only at hev
      rw [List.mem_append] at hev
      rcases hev with hev | hev
      · rcases hshape with h1 | h1 <;> rw [h1] at hev <;> simp at hev
        · exact Or.inl ⟨b.timeoutTx, hev⟩
        · rcases hev with hev | hev
          · exact Or.inl ⟨b.timeoutTx, hev⟩
          · exact Or.inr ⟨_, _, _, hev⟩
      · exact ih ev hev

theorem sweepCribs_pubs (cfg : NurseryConfig) (ora : Oracle) (h : Nat)
    (bs : List babyOutput) :
    sweepPubs (sweepCribs cfg ora h bs).2 = [] := by
  unfold sweepPubs
  rw [List.filterMap_eq_nil]
  intro ev hev
  rcases sweepCribs_events cfg ora h bs ev hev with ⟨t, rfl⟩ | ⟨a, d, hh, rfl⟩ <;> rfl

theorem sweepCribs_no_finalize (cfg : NurseryConfig) (ora : Oracle) (h : Nat)
    (bs : List babyOutput) :
    ∀ h2 tx2, Event.finalizeKinder h2 tx2 ∉ (sweepCribs cfg ora h bs).2 := by
  intro h2 tx2 hmem
  rcases sweepCribs_events cfg ora h bs _ hmem with ⟨t, ht⟩ | ⟨a, d, hh, ht⟩ <;>
    simp at ht

theorem sweepCribs_no_purge (cfg : NurseryConfig) (ora : Oracle) (h : Nat)
    (bs : List babyOutput) :
    ∀ h2, Event.purgeHeight h2 ∉ (sweepCribs cfg ora h bs).2 := by
  intro h2 hmem
  rcases sweepCribs_events cfg ora h bs _ hmem with ⟨t, ht⟩ | ⟨a, d, hh, ht⟩ <;>
    simp at ht

theorem finalizePhase_spec (ora : Oracle) (s : Store) (H : Nat) :
    (H ≤ s.lfh → finalizePhase ora s H = .ok (s.fstx H, s, [])) ∧
    (s.lfh < H →
      (∃ e, finalizePhase ora s H = .error e ∧
        0 < (s.kgtnAt H).length ∧ createSweepTx ora (s.kgtnAt H) = .error e) ∨
      (∃ v, finalizePhase ora s H =
        .ok (v, s.finalizeKinder H v, [.finalizeKinder H v]))) := by
  constructor
  · intro hle
    unfold finalizePhase
    rw [if_neg (by omega)]
  · intro hlt
    unfold finalizePhase
    rw [if_pos hlt]
    by_cases hk : 0 < (s.kgtnAt H).length
    · rw [if_pos hk]
      cases hc : createSweepTx ora (s.kgtnAt H) with
      | error e => exact Or.inl ⟨e, by simp [hc, Except.map], hk, rfl⟩
      | ok t => exact Or.inr ⟨some t, by simp [hc, Except.map]⟩
    · rw [if_neg hk]
      exact Or.inr ⟨s.fstx H, rfl⟩

theorem purgeHeight_lfh (s : Store) (h : Nat) : (s.purgeHeight h).lfh = s.lfh := rfl

theorem purgeHeight_fstx (s : Store) (h h2 : Nat) :
    (s.purgeHeight h).fstx h2 = if h2 = h then none else s.fstx h2 := rfl

theorem finalizeKinder_lfh (s : Store) (h : Nat) (tx : Option MsgTx) :
    (s.finalizeKinder h tx).lfh = max s.lfh h := rfl

theorem finalizeKinder_fstx_self (s : Store) (h : Nat) (tx : Option MsgTx) :
    (s.finalizeKinder h tx).fstx h = tx := by
  simp [Store.finalizeKinder]

theorem graduateClass_after_finalize (cfg : NurseryConfig) (ora : Oracle)
    (s : Store) (H : Nat) (ftx : Option MsgTx) (s1 : Store) (ev1 : List Event)
    (hfp : finalizePhase ora s H = .ok (ftx, s1, ev1)) :
    ((graduateClass cfg ora s H).2.1 = s1 ∨
      (graduateClass cfg ora s H).2.1 = s1.purgeHeight (H - cfg.pruningDepth)) ∧
    ∃ tr2, (graduateClass cfg ora s H).2.2 = ev1 ++ tr2 ∧
      (∀ h2 tx2, Event.finalizeKinder h2 tx2 ∉ tr2) ∧
      sweepPubs tr2 = ftx.toList := by
  unfold graduateClass
  simp only [hfp]
  cases ftx with
  | none =>
    rcases hcr : sweepCribs cfg ora H (s.cribsAt H) with ⟨res3, ev3⟩
    cases res3 with
    | error e3 =>
      simp only [hcr]
      refine ⟨by simp, ev3, by simp, ?_, ?_⟩
      · intro h2 tx2 hm
        exact sweepCribs_no_finalize cfg ora H (s.cribsAt H) h2 tx2 (by rw [hcr]; exact hm)
      · have := sweepCribs_pubs cfg ora H (s.cribsAt H)
        rw [hcr] at this
        simpa using this
    | ok u =>
      simp only [hcr]
      by_cases hpd : H ≤ cfg.pruningDepth
      · rw [if_pos hpd]
        refine ⟨by simp, ev3, by simp, ?_, ?_⟩
        · intro h2 tx2 hm
          exact sweepCribs_no_finalize cfg ora H (s.cribsAt H) h2 tx2 (by rw [hcr]; exact hm)
        · have := sweepCribs_pubs cfg ora H (s.cribsAt H)
          rw [hcr] at this
          simpa using this
      · rw [if_neg hpd]
        refine ⟨by simp, ev3 ++ [.purgeHeight (H - cfg.pruningDepth)], by simp, ?_, ?_⟩
        · intro h2 tx2 hm
          rw [List.mem_append] at hm
          rcases hm with hm | hm
          · exact sweepCribs_no_finalize cfg ora H (s.cribsAt H) h2 tx2 (by rw [hcr]; exact hm)
          · simp at hm
        · rw [sweepPubs_append]
          have := sweepCribs_pubs cfg ora H (s.cribsAt H)
          rw [hcr] at this
          rw [this]
          rfl
  | some t =>
    rcases hgk : sweepGraduatingKinders cfg ora H t with ⟨res2, ev2⟩
    have hpub2 : sweepPubs ev2 = [t] := by
      have := sGK_pubs cfg ora H t
      rw [hgk] at this
      exact this
    have hnf2 : ∀ h2 tx2, Event.finalizeKinder h2 tx2 ∉ ev2 := by
      intro h2 tx2 hm
      exact sGK_no_finalize cfg ora H t h2 tx2 (by rw [hgk]; exact hm)
    cases res2 with
    | error e2 =>
      simp only [hgk]
      exact ⟨by simp, ev2, by simp, hnf2, hpub2⟩
    | ok u2 =>
      simp only [hgk]
      rcases hcr : sweepCribs cfg ora H (s.cribsAt H) with ⟨res3, ev3⟩
      have hpub3 : sweepPubs ev3 = [] := by
        have := sweepCribs_pubs cfg ora H (s.cribsAt H)
        rw [hcr] at this
        exact this
      have hnf3 : ∀ h2 tx2, Event.finalizeKinder h2 tx2 ∉ ev3 := by
        intro h2 tx2 hm
        exact sweepCribs_no_finalize cfg ora H (s.cribsAt H) h2 tx2 (by rw [hcr]; exact hm)
      cases res3 with
      | error e3 =>
        simp only [hcr]
        refine ⟨by simp, ev2 ++ ev3, by simp, ?_, ?_⟩
        · intro h2 tx2 hm
          rw [List.mem_append] at hm
          rcases hm with hm | hm
          · exact hnf2 h2 tx2 hm
          · exact hnf3 h2 tx2 hm
        · rw [sweepPubs_append, hpub2, hpub3]
          rfl
      | ok u3 =>
        simp only [hcr]
        by_cases hpd : H ≤ cfg.pruningDepth
        · rw [if_pos hpd]
          refine ⟨by simp, ev2 ++ ev3, by simp, ?_, ?_⟩
          · intro h2 tx2 hm
            rw [List.mem_append] at hm
            rcases hm with hm | hm
            · exact hnf2 h2 tx2 hm
            · exact hnf3 h2 tx2 hm
          · rw [sweepPubs_append, hpub2, hpub3]
            rfl
        · rw [if_neg hpd]
          refine ⟨by simp,
            ev2 ++ ev3 ++ [.purgeHeight (H - cfg.pruningDepth)], by simp, ?_, ?_⟩
          · intro h2 tx2 hm
            rw [List.mem_append] at hm
            rcases hm with hm | hm
            · rw [List.mem_append] at hm
              rcases hm with hm | hm
              · exact hnf2 h2 tx2 hm
              · exact hnf3 h2 tx2 hm
            · simp at hm
          · rw [sweepPubs_append, sweepPubs_append, hpub2, hpub3]
            rfl

theorem graduateClass_spec (cfg : NurseryConfig) (ora : Oracle) (s : Store) (H : Nat) :
    (∀ h tx, Event.finalizeKinder h tx ∈ (graduateClass cfg ora s H).2.2 → s.lfh < H) ∧
    (H ≤ s.lfh →
      (∀ h tx, Event.finalizeKinder h tx ∉ (graduateClass cfg ora s H).2.2) ∧
      (graduateClass cfg ora s H).2.1.lfh = s.lfh ∧
      ((graduateClass cfg ora s H).2.1.fstx H = s.fstx H ∨
        (graduateClass cfg ora s H).2.1.fstx H = none) ∧
      (∀ t ∈ sweepPubs (graduateClass cfg ora s H).2.2, s.fstx H = some t)) ∧
    (s.lfh < H →
      ((graduateClass cfg ora s H).2.1 = s ∧
        sweepPubs (graduateClass cfg ora s H).2.2 = []) ∨
      (∃ v, H ≤ (graduateClass cfg ora s H).2.1.lfh ∧
        ((graduateClass cfg ora s H).2.1.fstx H = v ∨
          (graduateClass cfg ora s H).2.1.fstx H = none) ∧
        (∀ t ∈ sweepPubs (graduateClass cfg ora s H).2.2, v = some t))) := by
  obtain ⟨hle, hlt⟩ := finalizePhase_spec ora s H
  refine ⟨?_, ?_, ?_⟩
  · intro h tx hm
    by_cases hcmp : s.lfh < H
    · exact hcmp
    · exfalso
      have hfp := hle (by omega)
      obtain ⟨hst, tr2, htr, hnf, hpub⟩ :=
        graduateClass_after_finalize cfg ora s H (s.fstx H) s [] hfp
      rw [htr] at hm
      simp at hm
      exact hnf h tx hm
  · intro hcmp
    have hfp := hle hcmp
    obtain ⟨hst, tr2, htr, hnf, hpub⟩ :=
      graduateClass_after_finalize cfg ora s H (s.fstx H) s [] hfp
    refine ⟨?_, ?_, ?_, ?_⟩
    · intro h tx hm
      rw [htr] at hm
      simp at hm
      exact hnf h tx hm
    · rcases hst with h1 | h1 <;> rw [h1]
      rfl
    · rcases hst with h1 | h1 <;> rw [h1]
      · exact Or.inl rfl
      · rw [purgeHeight_fstx]
        by_cases he : H = H - cfg.pruningDepth
        · rw [if_pos he]; exact Or.inr rfl
        · rw [if_neg he]; exact Or.inl rfl
    · intro t hm
      rw [htr] at hm
      simp only [List.nil_append] at hm
      rw [hpub] at hm
      cases hv : s.fstx H with
      | some t0 =>
        rw [hv] at hm
        simp [Option.toList] at hm
        rw [hm]
      | none =>
        rw [hv] at hm
        simp [Option.toList] at hm
  · intro hcmp
    rcases hlt hcmp with ⟨e, hfp, hk, hcs⟩ | ⟨v, hfp⟩
    · left
      unfold graduateClass
      rw [hfp]
      exact ⟨rfl, rfl⟩
    · right
      obtain ⟨hst, tr2, htr, hnf, hpub⟩ :=
        graduateClass_after_finalize cfg ora s H v (s.finalizeKinder H v)
          [.finalizeKinder H v] hfp
      refine ⟨v, ?_, ?_, ?_⟩
      · rcases hst with h1 | h1 <;> rw [h1]
        · rw [finalizeKinder_lfh]; omega
        · rw [purgeHeight_lfh, finalizeKinder_lfh]; omega
      · rcases hst with h1 | h1 <;> rw [h1]
        · exact Or.inl (finalizeKinder_fstx_self s H v)
        · rw [purgeHeight_fstx]
          by_cases he : H = H - cfg.pruningDepth
          · rw [if_pos he]; exact Or.inr rfl
          · rw [if_neg he]
            exact Or.inl (finalizeKinder_fstx_self s H v)
      · intro t hm
        rw [htr, sweepPubs_append] at hm
        have h0 : sweepPubs [Event.finalizeKinder H v] = [] := rfl
        rw [h0] at hm
        simp only [List.nil_append] at hm
        rw [hpub] at hm
        cases v with
        | some t0 =>
          simp [Option.toList] at hm
          rw [hm]
        | none => simp [Option.toList] at hm

theorem iterate_pubs_invariant (cfg : NurseryConfig) (H : Nat) (oras : List Oracle) :
    ∀ (s : Store) (pub0 : List MsgTx),
      (∀ t ∈ pub0, H ≤ s.lfh ∧ (s.fstx H = none ∨ s.fstx H = some t)) →
      (∀ t1 ∈ pub0, ∀ t2 ∈ pub0, t1 = t2) →
      ∀ t1 ∈ pub0 ++ sweepPubs (iterateGraduate cfg H oras s).2,
        ∀ t2 ∈ pub0 ++ sweepPubs (iterateGraduate cfg H oras s).2, t1 = t2 := by
  induction oras with
  | nil =>
    intro s pub0 hinv hpair t1 h1 t2 h2
    simp only [iterateGraduate, sweepPubs, List.filterMap_nil, List.append_nil] at h1 h2
    exact hpair t1 h1 t2 h2
  | cons ora oras ih =>
    intro s pub0 hinv hpair
    obtain ⟨spec1, spec2, spec3⟩ := graduateClass_spec cfg ora s H
    have hstep : ∀ t ∈ pub0 ++ sweepPubs (graduateClass cfg ora s H).2.2,
        H ≤ (graduateClass cfg ora s H).2.1.lfh ∧
        ((graduateClass cfg ora s H).2.1.fstx H = none ∨
          (graduateClass cfg ora s H).2.1.fstx H = some t) := by
      intro t hm
      rw [List.mem_append] at hm
      by_cases hcmp : H ≤ s.lfh
      · obtain ⟨hnf, hlfh, hfstx, hpubs⟩ := spec2 hcmp
        rcases hm with hm | hm
        · obtain ⟨hts, hfx⟩ := hinv t hm
          refine ⟨by rw [hlfh]; exact hts, ?_⟩
          rcases hfstx with hx | hx
          · rw [hx]; exact hfx
          · exact Or.inl hx
        · have hsf := hpubs t hm
          refine ⟨by rw [hlfh]; exact hcmp, ?_⟩
          rcases hfstx with hx | hx
          · right; rw [hx, hsf]
          · exact Or.inl hx
      · have hlt2 : s.lfh < H := by omega
        have hp0 : ∀ t2 ∈ pub0, False := fun t2 ht2 => hcmp (hinv t2 ht2).1
        rcases spec3 hlt2 with ⟨hs1, hpubs⟩ | ⟨v, hlfh, hfstx, hpubs⟩
        · rcases hm with hm | hm
          · exact (hp0 t hm).elim
          · rw [hpubs] at hm; simp at hm
        · rcases hm with hm | hm
          · exact (hp0 t hm).elim
          · have hv := hpubs t hm
            refine ⟨hlfh, ?_⟩
            rcases hfstx with hx | hx
            · right; rw [hx, ← hv]
            · exact Or.inl hx
    have hstepPair : ∀ t1 ∈ pub0 ++ sweepPubs (graduateClass cfg ora s H).2.2,
        ∀ t2 ∈ pub0 ++ sweepPubs (graduateClass cfg ora s H).2.2, t1 = t2 := by
      intro t1 h1 t2 h2
      rw [List.mem_append] at h1 h2
      by_cases hcmp : H ≤ s.lfh
      · obtain ⟨hnf, hlfh, hfstx, hpubs⟩ := spec2 hcmp
        rcases h1 with h1 | h1 <;> rcases h2 with h2 | h2
        · exact hpair t1 h1 t2 h2
        · obtain ⟨_, hfx⟩ := hinv t1 h1
          have hb := hpubs t2 h2
          rcases hfx with hfx | hfx
          · rw [hfx] at hb; cases hb
          · rw [hfx] at hb; injection hb
        · obtain ⟨_, hfx⟩ := hinv t2 h2
          have hb := hpubs t1 h1
          rcases hfx with hfx | hfx
          · rw [hfx] at hb; cases hb
          · rw [hfx] at hb; injection hb.symm
        · have ha := hpubs t1 h1
          have hb := hpubs t2 h2
          rw [ha] at hb
          injection hb
      · have hlt2 : s.lfh < H := by omega
        have hp0 : ∀ t2 ∈ pub0, False := fun t2 ht2 => hcmp (hinv t2 ht2).1
        rcases spec3 hlt2 with ⟨hs1, hpubs⟩ | ⟨v, hlfh, hfstx, hpubs⟩
        · rcases h1 with h1 | h1
          · exact (hp0 t1 h1).elim
          · rw [hpubs] at h1; simp at h1
        · rcases h1 with h1 | h1
          · exact (hp0 t1 h1).elim
          · rcases h2 with h2 | h2
            · exact (hp0 t2 h2).elim
            · have ha := hpubs t1 h1
              have hb := hpubs t2 h2
              rw [ha] at hb
              injection hb
    have hgoal := ih ((graduateClass cfg ora s H).2.1)
      (pub0 ++ sweepPubs (graduateClass cfg ora s H).2.2) hstep hstepPair
    intro t1 h1 t2 h2
    have hiter : (iterateGraduate cfg H (ora :: oras) s).2 =
        (graduateClass cfg ora s H).2.2 ++
          (iterateGraduate cfg H oras (graduateClass cfg ora s H).2.1).2 := rfl
    rw [hiter, sweepPubs_append, ← List.append_assoc] at h1 h2
    exact hgoal t1 h1 t2 h2

/-- C1: graduateClass finalizes a height only when it is strictly above the
last finalized height; at an already-finalized height it reuses the fetched
transaction (no FinalizeKinder call, every kindergarten broadcast is the
stored transaction); and across arbitrarily many invocations at one height,
with the store evolving by the FinalizeKinder and PurgeHeight contracts, at
most one distinct sweep transaction is ever broadcast for that batch. -/
theorem C1_single_sweep_txid :
    (∀ (cfg : NurseryConfig) (ora : Oracle) (s : Store) (H : Nat),
      (∀ h tx, Event.finalizeKinder h tx ∈ (graduateClass cfg ora s H).2.2 →
        s.lfh < H) ∧
      (H ≤ s.lfh →
        (∀ h tx, Event.finalizeKinder h tx ∉ (graduateClass cfg ora s H).2.2) ∧
        ∀ t ∈ sweepPubs (graduateClass cfg ora s H).2.2, s.fstx H = some t)) ∧
    (∀ (cfg : NurseryConfig) (oras : List Oracle) (s : Store) (H : Nat),
      ∀ t1 ∈ sweepPubs (iterateGraduate cfg H oras s).2,
      ∀ t2 ∈ sweepPubs (iterateGraduate cfg H oras s).2, t1 = t2) := by
  constructor
  · intro cfg ora s H
    obtain ⟨s1, s2, s3⟩ := graduateClass_spec cfg ora s H
    exact ⟨s1, fun hle => ⟨(s2 hle).1, (s2 hle).2.2.2⟩⟩
  · intro cfg oras s H t1 h1 t2 h2
    have hmain := iterate_pubs_invariant cfg H oras s [] (by simp) (by simp)
    exact hmain t1 (by simpa using h1) t2 (by simpa using h2)

/-- Witness for C1 at a store whose height 244 is already finalized. -/
theorem C1_single_sweep_txid_witness :
    (244 ≤ exStore.lfh) ∧
    ∀ t ∈ sweepPubs (graduateClass exCfg exOracle exStore 244).2.2,
      exStore.fstx 244 = some t :=
  ⟨by decide,
   ((C1_single_sweep_txid.1 exCfg exOracle exStore 244).2 (by decide)).2⟩

/-- C4: at a fresh height with kindergarten outputs, a failure inside sweep
construction (script generation, sanity check, or signing, all surfacing as
a createSweepTx error) makes graduateClass return that error with no
FinalizeKinder call and the store untouched; a sweep-script generation error
is one such failure. -/
theorem C4_sweep_error_no_finalize (cfg : NurseryConfig) (ora : Oracle)
    (s : Store) (H : Nat) (e : String)
    (h1 : s.lfh < H) (h2 : s.kgtnAt H ≠ [])
    (herr : createSweepTx ora (s.kgtnAt H) = .error e) :
    graduateClass cfg ora s H = (.error e, s, []) ∧
    ∀ e2 l, ora.genScript = .error e2 → createSweepTx ora l = .error e2 := by
  constructor
  · have hfp : finalizePhase ora s H = .error e := by
      unfold finalizePhase
      rw [if_pos h1, if_pos (List.length_pos.mpr h2), herr]
      rfl
    unfold graduateClass
    rw [hfp]
  · intro e2 l hg
    unfold createSweepTx sweepCsvSpendableOutputsTxn
    rw [hg]

/-- Witness for C4: a failing sweep-script generator aborts graduateClass
before finalization. -/
theorem C4_sweep_error_no_finalize_witness :
    (exStore2.lfh < 244 ∧ exStore2.kgtnAt 244 ≠ [] ∧
      createSweepTx exOracleErr (exStore2.kgtnAt 244) = .error "boom") ∧
    graduateClass exCfg exOracleErr exStore2 244 = (.error "boom", exStore2, []) :=
  ⟨⟨by decide, by decide, by decide⟩,
   (C4_sweep_error_no_finalize exCfg exOracleErr exStore2 244 "boom"
     (by decide) (by decide) (by decide)).1⟩

theorem finalizePhase_ok_ev (ora : Oracle) (s : Store) (H : Nat)
    (ftx : Option MsgTx) (s1 : Store) (ev1 : List Event)
    (h : finalizePhase ora s H = .ok (ftx, s1, ev1)) :
    ev1 = [] ∨ ev1 = [.finalizeKinder H ftx] := by
  unfold finalizePhase at h
  by_cases hc : s.lfh < H
  · rw [if_pos hc] at h
    cases hcs : (if 0 < (s.kgtnAt H).length then
        (createSweepTx ora (s.kgtnAt H)).map some else .ok (s.fstx H)) with
    | error e => rw [hcs] at h; exact Except.noConfusion h
    | ok v =>
      rw [hcs] at h
      injection h with h2
      injection h2 with ha hb
      injection hb with hb1 hb2
      subst hb2
      subst ha
      right
      rfl
  · rw [if_neg hc] at h
    injection h with h2
    injection h2 with ha hb
    injection hb with hb1 hb2
    subst hb2
    left
    rfl

/-- C7: Store.PurgeHeight is called by graduateClass only with the argument
H minus the pruning depth and only when H strictly exceeds the pruning
depth, so it is never invoked above the reorg safety floor; and on a fully
successful run it is invoked exactly when H exceeds the pruning depth. -/
theorem C7_purge_safety (cfg : NurseryConfig) (ora : Oracle) (s : Store) (H : Nat) :
    (∀ h2, Event.purgeHeight h2 ∈ (graduateClass cfg ora s H).2.2 →
      cfg.pruningDepth < H ∧ h2 = H - cfg.pruningDepth) ∧
    ((graduateClass cfg ora s H).1 = .ok () →
      (cfg.pruningDepth < H ↔
        Event.purgeHeight (H - cfg.pruningDepth) ∈ (graduateClass cfg ora s H).2.2)) := by
  cases hfp : finalizePhase ora s H with
  | error e =>
    have hG : graduateClass cfg ora s H = (.error e, s, []) := by
      unfold graduateClass
      rw [hfp]
    refine ⟨?_, ?_⟩
    · intro h2 hm
      rw [hG] at hm
      simp at hm
    · intro hok
      rw [hG] at hok
      simp at hok
  | ok trip =>
    obtain ⟨ftx, s1, ev1⟩ := trip
    have hev1 : ∀ h2, Event.purgeHeight h2 ∉ ev1 := by
      rcases finalizePhase_ok_ev ora s H ftx s1 ev1 hfp with h | h <;> rw [h] <;> simp
    cases ftx with
    | none =>
      rcases hcr : sweepCribs cfg ora H (s.cribsAt H) with ⟨res3, ev3⟩
      have hev3 : ∀ h2, Event.purgeHeight h2 ∉ ev3 := by
        intro h2 hm
        exact sweepCribs_no_purge cfg ora H (s.cribsAt H) h2 (by rw [hcr]; exact hm)
      cases res3 with
      | error e3 =>
        have hG : graduateClass cfg ora s H = (.error e3, s1, ev1 ++ [] ++ ev3) := by
          unfold graduateClass
          simp only [hfp, hcr]
        refine ⟨?_, ?_⟩
        · intro h2 hm
          rw [hG] at hm
          simp only [List.append_nil, List.mem_append] at hm
          rcases hm with hm | hm
          · exact ((hev1 h2) hm).elim
          · exact ((hev3 h2) hm).elim
        · intro hok
          rw [hG] at hok
          simp at hok
      | ok u3 =>
        by_cases hpd : H ≤ cfg.pruningDepth
        · have hG : graduateClass cfg ora s H = (.ok (), s1, ev1 ++ [] ++ ev3) := by
            unfold graduateClass
            simp only [hfp, hcr]
            rw [if_pos hpd]
          refine ⟨?_, ?_⟩
          · intro h2 hm
            rw [hG] at hm
            simp only [List.append_nil, List.mem_append] at hm
            rcases hm with hm | hm
            · exact ((hev1 h2) hm).elim
            · exact ((hev3 h2) hm).elim
          · intro hok
            constructor
            · intro hlt
              exact absurd hlt (by omega)
            · intro hm
              rw [hG] at hm
              simp only [List.append_nil, List.mem_append] at hm
              rcases hm with hm | hm
              · exact ((hev1 _) hm).elim
              · exact ((hev3 _) hm).elim
        · have hG : graduateClass cfg ora s H =
              (.ok (), s1.purgeHeight (H - cfg.pruningDepth),
               ev1 ++ [] ++ ev3 ++ [.purgeHeight (H - cfg.pruningDepth)]) := by
            unfold graduateClass
            simp only [hfp, hcr]
            rw [if_neg hpd]
          refine ⟨?_, ?_⟩
          · intro h2 hm
            rw [hG] at hm
            simp only [List.append_nil, List.mem_append] at hm
            rcases hm with (hm | hm) | hm
            · exact ((hev1 h2) hm).elim
            · exact ((hev3 h2) hm).elim
            · simp at hm
              exact ⟨by omega, hm⟩
          · intro hok
            constructor
            · intro hlt
              rw [hG]
              simp
            · intro hm
              omega
    | some t =>
      rcases hgk : sweepGraduatingKinders cfg ora H t with ⟨res2, ev2⟩
      have hev2 : ∀ h2, Event.purgeHeight h2 ∉ ev2 := by
        intro h2 hm
        exact sGK_no_purge cfg ora H t h2 (by rw [hgk]; exact hm)
      cases res2 with
      | error e2 =>
        have hG : graduateClass cfg ora s H = (.error e2, s1, ev1 ++ ev2) := by
          unfold graduateClass
          simp only [hfp, hgk]
        refine ⟨?_, ?_⟩
        · intro h2 hm
          rw [hG] at hm
          rw [List.mem_append] at hm
          rcases hm with hm | hm
          · exact ((hev1 h2) hm).elim
          · exact ((hev2 h2) hm).elim
        · intro hok
          rw [hG] at hok
          simp at hok
      | ok u2 =>
        rcases hcr : sweepCribs cfg ora H (s.cribsAt H) with ⟨res3, ev3⟩
        have hev3 : ∀ h2, Event.purgeHeight h2 ∉ ev3 := by
          intro h2 hm
          exact sweepCribs_no_purge cfg ora H (s.cribsAt H) h2 (by rw [hcr]; exact hm)
        cases res3 with
        | error e3 =>
          have hG : graduateClass cfg ora s H = (.error e3, s1, ev1 ++ ev2 ++ ev3) := by
            unfold graduateClass
            simp only [hfp, hgk, hcr]
          refine ⟨?_, ?_⟩
          · intro h2 hm
            rw [hG] at hm
            simp only [List.mem_append] at hm
            rcases hm with (hm | hm) | hm
            · exact ((hev1 h2) hm).elim
            · exact ((hev2 h2) hm).elim
            · exact ((hev3 h2) hm).elim
          · intro hok
            rw [hG] at hok
            simp at hok
        | ok u3 =>
          by_cases hpd : H ≤ cfg.pruningDepth
          · have hG : graduateClass cfg ora s H = (.ok (), s1, ev1 ++ ev2 ++ ev3) := by
              unfold graduateClass
              simp only [hfp, hgk, hcr]
              rw [if_pos hpd]
            refine ⟨?_, ?_⟩
            · intro h2 hm
              rw [hG] at hm
              simp only [List.mem_append] at hm
              rcases hm with (hm | hm) | hm
              · exact ((hev1 h2) hm).elim
              · exact ((hev2 h2) hm).elim
              · exact ((hev3 h2) hm).elim
            · intro hok
              constructor
              · intro hlt
                exact absurd hlt (by omega)
              · intro hm
                rw [hG] at hm
                simp only [List.mem_append] at hm
                rcases hm with (hm | hm) | hm
                · exact ((hev1 _) hm).elim
                · exact ((hev2 _) hm).elim
                · exact ((hev3 _) hm).elim
          · have hG : graduateClass cfg ora s H =
                (.ok (), s1.purgeHeight (H - cfg.pruningDepth),
                 ev1 ++ ev2 ++ ev3 ++ [.purgeHeight (H - cfg.pruningDepth)]) := by
              unfold graduateClass
              simp only [hfp, hgk, hcr]
              rw [if_neg hpd]
            refine ⟨?_, ?_⟩
            · intro h2 hm
              rw [hG] at hm
              simp only [List.mem_append] at hm
              rcases hm with ((hm | hm) | hm) | hm
              · exact ((hev1 h2) hm).elim
              · exact ((hev2 h2) hm).elim
              · exact ((hev3 h2) hm).elim
              · simp at hm
                exact ⟨by omega, hm⟩
            · intro hok
              constructor
              · intro hlt
                rw [hG]
                simp
              · intro hm
                omega

/-- Witness for C7: a fully successful run at height 244 with pruning depth
100 purges exactly height 144. -/
theorem C7_purge_safety_witness :
    ((graduateClass exCfg exOracle exStore2 244).1 = .ok ()) ∧
    (exCfg.pruningDepth < 244 ↔
      Event.purgeHeight (244 - exCfg.pruningDepth) ∈
        (graduateClass exCfg exOracle exStore2 244).2.2) :=
  ⟨by decide, (C7_purge_safety exCfg exOracle exStore2 244).2 (by decide)⟩

/-- C8: a publish error whose message contains the substring TX rejected: is
ignored and processing continues exactly as on success, with the
confirmation watcher still registered; any other publish error makes the
routine return that error without registering. This holds both for the
finalized kindergarten sweep broadcast and for the crib timeout broadcast. -/
theorem C8_soft_publish_errors (cfg : NurseryConfig) (ora : Oracle)
    (h : Nat) (t : MsgTx) (b : babyOutput) (e : String) :
    (ora.publish t = some e → goContains e "TX rejected:" = true →
      Event.registerConf (txHash t) cfg.confDepth h ∈
        (sweepGraduatingKinders cfg ora h t).2 ∧
      sweepGraduatingKinders cfg ora h t = sweepRegisterKinders cfg ora h t) ∧
    (ora.publish t = some e → goContains e "TX rejected:" = false →
      (sweepGraduatingKinders cfg ora h t).1 = .error e ∧
      ∀ txid d hh, Event.registerConf txid d hh ∉ (sweepGraduatingKinders cfg ora h t).2) ∧
    (ora.publish b.timeoutTx = some e → goContains e "TX rejected:" = true →
      Event.registerConf b.kid.outpoint.hash cfg.confDepth h ∈
        (sweepCribOutput cfg ora h b).2 ∧
      sweepCribOutput cfg ora h b = sweepRegisterCrib cfg ora h b) ∧
    (ora.publish b.timeoutTx = some e → goContains e "TX rejected:" = false →
      (sweepCribOutput cfg ora h b).1 = .error e ∧
      ∀ txid d hh, Event.registerConf txid d hh ∉ (sweepCribOutput cfg ora h b).2) := by
  refine ⟨?_, ?_, ?_, ?_⟩
  · intro hp hc
    constructor
    · unfold sweepGraduatingKinders sweepRegisterKinders
      simp only [hp, hc, if_true]
      cases hr : ora.register (txHash t) <;> simp [hr]
    · unfold sweepGraduatingKinders
      simp only [hp, hc, if_true]
  · intro hp hc
    constructor
    · unfold sweepGraduatingKinders
      simp [hp, hc]
    · intro txid d hh hm
      unfold sweepGraduatingKinders at hm
      simp [hp, hc] at hm
  · intro hp hc
    constructor
    · unfold sweepCribOutput sweepRegisterCrib
      simp only [hp, hc, if_true]
      cases hr : ora.register b.kid.outpoint.hash <;> simp [hr]
    · unfold sweepCribOutput
      simp only [hp, hc, if_true]
  · intro hp hc
    constructor
    · unfold sweepCribOutput
      simp [hp, hc]
    · intro txid d hh hm
      unfold sweepCribOutput at hm
      simp [hp, hc] at hm

/-- Witness for C8: a soft rejection still registers the sweep watcher; a
hard failure is returned as the error. -/
theorem C8_soft_publish_errors_witness :
    (exOracleSoft.publish exTx = some "TX rejected: duplicate" ∧
      goContains "TX rejected: duplicate" "TX rejected:" = true ∧
      exOracleHard.publish exTx = some "connection refused" ∧
      goContains "connection refused" "TX rejected:" = false) ∧
    Event.registerConf (txHash exTx) exCfg.confDepth 244 ∈
      (sweepGraduatingKinders exCfg exOracleSoft 244 exTx).2 ∧
    (sweepGraduatingKinders exCfg exOracleHard 244 exTx).1 = .error "connection refused" :=
  ⟨⟨by decide, by decide, by decide, by decide⟩,
   ((C8_soft_publish_errors exCfg exOracleSoft 244 exTx exBaby
       "TX rejected: duplicate").1 (by decide) (by decide)).1,
   ((C8_soft_publish_errors exCfg exOracleHard 244 exTx exBaby
       "connection refused").2.1 (by decide) (by decide)).1⟩

theorem incubate_fold (cs : ForceCloseSummary) (rs : List OutgoingHtlcResolution)
    (acc : List babyOutput) :
    rs.foldl
      (fun acc r =>
        let b := mkIncubateBaby cs r
        if 0 < b.kid.amt then acc ++ [b] else acc) acc =
    acc ++ (rs.map (mkIncubateBaby cs)).filter (fun b => decide (0 < b.kid.amt)) := by
  induction rs generalizing acc with
  | nil => simp
  | cons r rs ih =>
    simp only [List.foldl_cons, List.map_cons, List.filter_cons]
    by_cases hpos : 0 < (mkIncubateBaby cs r).kid.amt
    · simp only [hpos, if_true, decide_eq_true_eq, ih]
      simp [hpos]
    · simp only [hpos, if_false, ih]
      simp [hpos]

/-- C6: IncubateOutputs builds the commitment kid output exactly when the
self-output sign descriptor is present and its amount is strictly positive,
builds one baby output per htlc resolution with strictly positive amount,
and when both sets are empty immediately marks the channel fully closed in
the external channel database and returns without writing to the store. -/
theorem C6_incubate_construction :
    (∀ cs : ForceCloseSummary, (incubateCommOutput cs).isSome = true ↔
      ∃ sd, cs.selfOutputSignDesc = some sd ∧ 0 < sd.outputValue) ∧
    (∀ cs : ForceCloseSummary, incubateHtlcOutputs cs =
      (cs.htlcResolutions.map (mkIncubateBaby cs)).filter
        (fun b => decide (0 < b.kid.amt))) ∧
    (∀ (cfg : NurseryConfig) (ora : Oracle) (ch : Nat) (cs : ForceCloseSummary),
      incubateCommOutput cs = none → incubateHtlcOutputs cs = [] →
      IncubateOutputs cfg ora ch cs =
        (ora.markClosedResult, [.markChanFullyClosed cs.chanPoint])) := by
  refine ⟨?_, ?_, ?_⟩
  · intro cs
    cases hsd : cs.selfOutputSignDesc with
    | none => simp [incubateCommOutput, hsd]
    | some sd =>
      by_cases hpos : 0 < sd.outputValue
      · simp [incubateCommOutput, hsd, makeKidOutput, hpos]
      · simp [incubateCommOutput, hsd, makeKidOutput, hpos]
  · intro cs
    unfold incubateHtlcOutputs
    rw [incubate_fold cs cs.htlcResolutions []]
    simp
  · intro cfg ora ch cs hc hh
    unfold IncubateOutputs
    simp [hc, hh]

/-- Witness for C6: a summary with no sign descriptor and no htlcs marks the
channel fully closed immediately. -/
theorem C6_incubate_construction_witness :
    (incubateCommOutput exSummaryEmpty = none ∧
      incubateHtlcOutputs exSummaryEmpty = []) ∧
    IncubateOutputs exCfg exOracle 100 exSummaryEmpty =
      (exOracle.markClosedResult, [.markChanFullyClosed exSummaryEmpty.chanPoint]) :=
  ⟨⟨by decide, by decide⟩,
   C6_incubate_construction.2.2 exCfg exOracle 100 exSummaryEmpty
     (by decide) (by decide)⟩

/-- C10: every baby output created by IncubateOutputs takes its outpoint
from output zero of its own presigned timeout transaction, and its blocks
to maturity from the summary's commitment self-output maturity. -/
theorem C10_baby_outpoint_maturity (cs : ForceCloseSummary) :
    ∀ b ∈ incubateHtlcOutputs cs,
      b.kid.outpoint = ⟨txHash b.timeoutTx, 0⟩ ∧
      b.kid.blocksToMaturity = cs.selfOutputMaturity ∧
      ∃ r ∈ cs.htlcResolutions, b = mkIncubateBaby cs r := by
  intro b hb
  unfold incubateHtlcOutputs at hb
  rw [incubate_fold cs cs.htlcResolutions []] at hb
  simp only [List.nil_append, List.mem_filter] at hb
  obtain ⟨hmem, hpos⟩ := hb
  obtain ⟨r, hr, rfl⟩ := List.mem_map.mp hmem
  exact ⟨rfl, rfl, r, hr, rfl⟩

/-- Witness for C10 at a concrete htlc resolution. -/
theorem C10_baby_outpoint_maturity_witness :
    (exBabyIncubated ∈ incubateHtlcOutputs exSummaryHtlc) ∧
    exBabyIncubated.kid.outpoint = ⟨txHash exBabyIncubated.timeoutTx, 0⟩ ∧
    exBabyIncubated.kid.blocksToMaturity = exSummaryHtlc.selfOutputMaturity :=
  ⟨by decide,
   (C10_baby_outpoint_maturity exSummaryHtlc exBabyIncubated (by decide)).1,
   (C10_baby_outpoint_maturity exSummaryHtlc exBabyIncubated (by decide)).2.1⟩
